import Mathlib

/-!
Verification of the hypothesis-introduction engine (`introN` / `intro` / `intro1`)
of `Init/Lean/Meta/Tactic/Intro.c` (compiled Lean stage0 module
`Init.Lean.Meta.Tactic.Intro`) against its natural-language specification.

The engine is shallowly embedded below: the data model (terms with de Bruijn
indices, local contexts, the metavariable context, the instance cache) and the
operations (`introNCoreAux`, `withNewLocalInstances`, `introNCore`, `introN`,
`intro`, `intro1`, `mkAuxName`) are translated from the compiled source.
External collaborators that the source only imports (`whnf`, `isClassQuick`,
`isClassExpensive`, the unused-name generator) are kept as parameters, as the
specification treats them as oracles.  Helper primitives of the repository that
live outside the provided source file (metavariable lookup, `assignExpr`,
`instantiateRevRange`, `mkLambda`, fresh-id generation) are modelled from the
specification text, as marked on each definition.
-/

set_option maxRecDepth 10000

namespace IntroSpec

/-- Hierarchical names, as in the source's `Lean.Name`. -/
inductive Name where
  | anonymous : Name
  | str (pre : Name) (s : String) : Name
  | num (pre : Name) (n : Nat) : Name
deriving DecidableEq

/-- The tactic name `introN` used in `throwTacticEx` calls
(`l_Lean_Meta_introNCoreAux___main___rarg___lambda__1___closed__2`). -/
def introNTacticName : Name := Name.str Name.anonymous "introN"

/-- The reserved placeholder (hole) name compared against in `mkAuxName`
(`l_Lean_Meta_mkAuxName___closed__1`, built from `l_Lean_mkHole___closed__3`). -/
def placeholderName : Name := Name.str Name.anonymous "_"

/-- Binder annotations carried by `forallE` binders, as decoded from the packed
binder data by `l_Lean_Expr_Data_binderInfo`. -/
inductive BinderInfo where
  | default : BinderInfo
  | implicit : BinderInfo
  | strictImplicit : BinderInfo
  | instImplicit : BinderInfo
  | auxDecl : BinderInfo
deriving DecidableEq

/-- Expression trees with de Bruijn-indexed bound variables; the constructor
tags 7 (`forallE`) and 8 (`letE`) are the ones the peeling loop destructures,
everything else is opaque to the engine and handed to the `whnf` oracle. -/
inductive Expr where
  | bvar (i : Nat) : Expr
  | fvar (id : Nat) : Expr
  | mvar (id : Nat) : Expr
  | sort (u : Nat) : Expr
  | const (nm : Name) : Expr
  | app (f a : Expr) : Expr
  | lam (nm : Name) (bi : BinderInfo) (d b : Expr) : Expr
  | forallE (nm : Name) (bi : BinderInfo) (d b : Expr) : Expr
  | letE (nm : Name) (t v b : Expr) : Expr
deriving DecidableEq

/-- Test used by the whnf-fallback continuation (`l_Lean_Expr_isForall`). -/
def Expr.isForall : Expr → Bool
  | Expr.forallE _ _ _ _ => true
  | _ => false

/-- Extract the id of a free-variable expression (`l_Lean_Expr_fvarId_x21`);
the bang-variant of the source panics on other constructors, modelled by `0`. -/
def exprFVarId : Expr → Nat
  | Expr.fvar id => id
  | _ => 0

/-- Extract the id of a metavariable expression (`l_Lean_Expr_mvarId_x21`). -/
def exprMVarId : Expr → Nat
  | Expr.mvar id => id
  | _ => 0

/-- Modelled from the spec: expressions whose loose bound-variable indices are
all below `d`; substituted free-variable terms are closed (`ClosedBelow 0`). -/
def ClosedBelow (d : Nat) : Expr → Bool
  | Expr.bvar i => decide (i < d)
  | Expr.fvar _ => true
  | Expr.mvar _ => true
  | Expr.sort _ => true
  | Expr.const _ => true
  | Expr.app f a => ClosedBelow d f && ClosedBelow d a
  | Expr.lam _ _ t b => ClosedBelow d t && ClosedBelow (d + 1) b
  | Expr.forallE _ _ t b => ClosedBelow d t && ClosedBelow (d + 1) b
  | Expr.letE _ t v b => ClosedBelow d t && ClosedBelow d v && ClosedBelow (d + 1) b

/-- Modelled from the spec: raise every loose bound variable with index `≥ s`
by `d`, the lifting step of de Bruijn instantiation. -/
def liftLooseBVars (s d : Nat) : Expr → Expr
  | Expr.bvar i => if i < s then Expr.bvar i else Expr.bvar (i + d)
  | Expr.fvar id => Expr.fvar id
  | Expr.mvar id => Expr.mvar id
  | Expr.sort u => Expr.sort u
  | Expr.const nm => Expr.const nm
  | Expr.app f a => Expr.app (liftLooseBVars s d f) (liftLooseBVars s d a)
  | Expr.lam nm bi t b => Expr.lam nm bi (liftLooseBVars s d t) (liftLooseBVars (s + 1) d b)
  | Expr.forallE nm bi t b =>
      Expr.forallE nm bi (liftLooseBVars s d t) (liftLooseBVars (s + 1) d b)
  | Expr.letE nm t v b =>
      Expr.letE nm (liftLooseBVars s d t) (liftLooseBVars s d v) (liftLooseBVars (s + 1) d b)

/-- Modelled from the spec: instantiate the loose bound variables of an
expression with the terms `ys`, where the last element of `ys` replaces index
`0` (shifted by the current binder depth `d`), the next-to-last index `1`, and
so on; remaining loose indices are lowered by `ys.length`.  This is the
reversed-window substitution performed by `lean_expr_instantiate_rev_range`. -/
def instRevList (ys : List Expr) : Nat → Expr → Expr
  | d, Expr.bvar i =>
      if i < d then Expr.bvar i
      else if i - d < ys.length then
        liftLooseBVars 0 d (ys.getD (ys.length - 1 - (i - d)) (Expr.bvar 0))
      else Expr.bvar (i - ys.length)
  | _, Expr.fvar id => Expr.fvar id
  | _, Expr.mvar id => Expr.mvar id
  | _, Expr.sort u => Expr.sort u
  | _, Expr.const nm => Expr.const nm
  | d, Expr.app f a => Expr.app (instRevList ys d f) (instRevList ys d a)
  | d, Expr.lam nm bi t b => Expr.lam nm bi (instRevList ys d t) (instRevList ys (d + 1) b)
  | d, Expr.forallE nm bi t b =>
      Expr.forallE nm bi (instRevList ys d t) (instRevList ys (d + 1) b)
  | d, Expr.letE nm t v b =>
      Expr.letE nm (instRevList ys d t) (instRevList ys d v) (instRevList ys (d + 1) b)

/-- Modelled from the spec: `lean_expr_instantiate_rev_range e beg en xs`
instantiates `e` with the window `xs[beg..en)` of the substitution array,
reversed. -/
def instantiateRevRange (e : Expr) (beg en : Nat) (xs : Array Expr) : Expr :=
  instRevList ((xs.toList.drop beg).take (en - beg)) 0 e

/-- Number of leading `forallE` / `letE` binders of an expression. -/
def leadingBinders : Expr → Nat
  | Expr.forallE _ _ _ b => leadingBinders b + 1
  | Expr.letE _ _ _ b => leadingBinders b + 1
  | _ => 0

/-- Strip `n` leading binders, returning the raw (un-instantiated) body. -/
def stripN : Nat → Expr → Expr
  | 0, e => e
  | n + 1, Expr.forallE _ _ _ b => stripN n b
  | n + 1, Expr.letE _ _ _ b => stripN n b
  | _ + 1, e => e

/-- Specification-side peeling: remove one leading binder per given free
variable, instantiating each body eagerly with the corresponding variable, in
order; `none` when a non-binder head is reached too early. -/
def peelTele : Expr → List Expr → Option Expr
  | e, [] => some e
  | Expr.forallE _ _ _ b, x :: xs => peelTele (instRevList [x] 0 b) xs
  | Expr.letE _ _ _ b, x :: xs => peelTele (instRevList [x] 0 b) xs
  | _, _ :: _ => none

/-- Local declarations: plain hypotheses (`lean_local_ctx_mk_local_decl`) and
let-bound hypotheses (`lean_local_ctx_mk_let_decl`). -/
inductive LocalDecl where
  | cdecl (fvarId : Nat) (userName : Name) (type : Expr) (bi : BinderInfo) : LocalDecl
  | ldecl (fvarId : Nat) (userName : Name) (type : Expr) (value : Expr) : LocalDecl
deriving DecidableEq

/-- Identifier of a local declaration. -/
def LocalDecl.fvarId : LocalDecl → Nat
  | LocalDecl.cdecl id _ _ _ => id
  | LocalDecl.ldecl id _ _ _ => id

/-- User-facing name of a local declaration. -/
def LocalDecl.userName : LocalDecl → Name
  | LocalDecl.cdecl _ nm _ _ => nm
  | LocalDecl.ldecl _ nm _ _ => nm

/-- Type of a local declaration (`l_Lean_LocalDecl_type`). -/
def LocalDecl.type : LocalDecl → Expr
  | LocalDecl.cdecl _ _ t _ => t
  | LocalDecl.ldecl _ _ t _ => t

/-- Ordered local context of declarations, oldest first. -/
structure LocalContext where
  decls : List LocalDecl
deriving DecidableEq

/-- Lookup in a list of declarations by free-variable id, oldest first. -/
def findDeclList : List LocalDecl → Nat → Option LocalDecl
  | [], _ => none
  | dd :: rest, id => if dd.fvarId = id then some dd else findDeclList rest id

/-- Lookup of a local declaration by its free-variable id. -/
def LocalContext.find? (lctx : LocalContext) (id : Nat) : Option LocalDecl :=
  findDeclList lctx.decls id

/-- Append a plain hypothesis declaration (`lean_local_ctx_mk_local_decl`). -/
def LocalContext.mkLocalDecl (lctx : LocalContext) (fvarId : Nat) (nm : Name)
    (type : Expr) (bi : BinderInfo) : LocalContext :=
  ⟨lctx.decls ++ [LocalDecl.cdecl fvarId nm type bi]⟩

/-- Append a let-bound hypothesis declaration (`lean_local_ctx_mk_let_decl`). -/
def LocalContext.mkLetDecl (lctx : LocalContext) (fvarId : Nat) (nm : Name)
    (type value : Expr) : LocalContext :=
  ⟨lctx.decls ++ [LocalDecl.ldecl fvarId nm type value]⟩

/-- Record that the hypothesis `fvar` is an instance of class `className`, as
pushed onto the context's instance array by `withNewLocalInstances`. -/
structure LocalInstance where
  className : Name
  fvar : Expr
deriving DecidableEq

/-- Declaration of a metavariable: user-facing tag, owning local context,
type, depth, the local instances of the owning context, and kind. -/
structure MetavarDecl where
  userName : Name
  lctx : LocalContext
  type : Expr
  depth : Nat
  localInstances : Array LocalInstance
  kind : Nat
deriving DecidableEq

/-- The shared metavariable store: declarations plus expression assignments;
its only mutators here are declaration insertion (`mkFreshExprMVar`) and
`assignExpr`. -/
structure MetavarContext where
  depth : Nat
  decls : List (Nat × MetavarDecl)
  eAssignment : List (Nat × Expr)
deriving DecidableEq

/-- Lookup of a metavariable declaration, newest first. -/
def MetavarContext.findDecl? (mctx : MetavarContext) (mvarId : Nat) : Option MetavarDecl :=
  (mctx.decls.find? (fun p => p.1 = mvarId)).map (fun p => p.2)

/-- Whether a metavariable has an expression assignment. -/
def MetavarContext.isExprAssigned (mctx : MetavarContext) (mvarId : Nat) : Bool :=
  (mctx.eAssignment.find? (fun p => p.1 = mvarId)).isSome

/-- Modelled from the spec: `assign(mvarId, term)` records the solution of a
metavariable (`l_Lean_MetavarContext_assignExpr`). -/
def MetavarContext.assignExpr (mctx : MetavarContext) (mvarId : Nat) (e : Expr) :
    MetavarContext :=
  { mctx with eAssignment := (mvarId, e) :: mctx.eAssignment }

/-- Insert a freshly created metavariable declaration, newest first. -/
def MetavarContext.addDecl (mctx : MetavarContext) (mvarId : Nat) (d : MetavarDecl) :
    MetavarContext :=
  { mctx with decls := (mvarId, d) :: mctx.decls }

/-- The memoization table for instance resolution; opaque to this module,
only ever reset to empty or restored wholesale. -/
abbrev SynthCache : Type := List (Expr × Option Expr)

/-- The meta cache record; field 2 is the instance-resolution cache that
`resettingSynthInstanceCache` clears, the other fields are untouched here. -/
structure Cache where
  inferTypeCache : Nat
  funInfoCache : Nat
  synthInstance : SynthCache
deriving DecidableEq

/-- Reader part of the meta monad: field 1 is the local context, field 2 the
local-instance array of the current context. -/
structure Context where
  config : Nat
  lctx : LocalContext
  localInstances : Array LocalInstance
  extra3 : Nat
  extra4 : Nat
deriving DecidableEq

/-- State part of the meta monad: field 1 is the metavariable context, field 2
the cache; `ngen` drives fresh-identifier generation. -/
structure State where
  env : Nat
  mctx : MetavarContext
  cache : Cache
  ngen : Nat
  traceState : Nat
  postponed : Nat
deriving DecidableEq

/-- Error kinds raised through `throwTacticEx` or the store primitives. -/
inductive TacticErrKind where
  | insufficientBinders : TacticErrKind
  | alreadyAssigned : TacticErrKind
deriving DecidableEq

/-- Exceptions of the embedded meta monad. -/
inductive MetaErr where
  | unknownMVar (mvarId : Nat) : MetaErr
  | unknownFVar (fvarId : Nat) : MetaErr
  | tacticEx (tactic : Name) (mvarId : Nat) (kind : TacticErrKind) : MetaErr
  | oracleErr (code : Nat) : MetaErr
deriving DecidableEq

/-- Outcome of a meta computation: value or exception, each with the final
state, mirroring the `EStateM.Result` threading of the source. -/
inductive MResult (α : Type) where
  | ok (val : α) (s : State) : MResult α
  | error (e : MetaErr) (s : State) : MResult α
deriving DecidableEq

/-- State carried by an outcome, on both the success and the error path. -/
def MResult.state {α : Type} : MResult α → State
  | MResult.ok _ s => s
  | MResult.error _ s => s

/-- Apply a state transformation to an outcome, leaving value or error alone. -/
def mapResState {α : Type} (g : State → State) : MResult α → MResult α
  | MResult.ok v s => MResult.ok v (g s)
  | MResult.error e s => MResult.error e (g s)

/-- Replace the instance-resolution cache of a state. -/
def setSynth (c : SynthCache) (st : State) : State :=
  { st with cache := { st.cache with synthInstance := c } }

/-- Restore a saved instance-resolution cache into an outcome's state; this is
the epilogue of `resettingSynthInstanceCache`, applied by the source on the
success and on the error path alike. -/
def restoreSynth {α : Type} (c : SynthCache) (r : MResult α) : MResult α :=
  mapResState (setSynth c) r

/-- The result of `isClassQuick`: the three-valued answer of the syntactic
classifier (constructor tags 0 / 1 / 2 in the compiled source). -/
inductive LOptionName where
  | lnone : LOptionName
  | lsome (className : Name) : LOptionName
  | lundef : LOptionName
deriving DecidableEq

/-- The external collaborators, kept abstract exactly as the specification's
interface says: whnf reduction, the two-tier class classifier, and the
unused-name generator (`lean_local_ctx_get_unused_name`). -/
structure Oracles where
  whnf : Expr → Context → State → MResult Expr
  isClassQuick : Expr → Context → State → MResult LOptionName
  isClassExpensive : Expr → Context → State → MResult (Option Name)
  getUnusedName : LocalContext → Name → Name

/-- Modelled from the spec: `getDecl(mvarId)` fetches a metavariable's
declaration from the store (`l_Lean_Meta_getMVarDecl`), failing when it is
absent. -/
def getMVarDecl (mvarId : Nat) (_ctx : Context) (s : State) : MResult MetavarDecl :=
  match s.mctx.findDecl? mvarId with
  | some d => MResult.ok d s
  | none => MResult.error (MetaErr.unknownMVar mvarId) s

/-- Modelled from the spec: the goal's type, via the metavariable lookup
(`l_Lean_Meta_getMVarType`). -/
def getMVarType (mvarId : Nat) (ctx : Context) (s : State) : MResult Expr :=
  match getMVarDecl mvarId ctx s with
  | MResult.ok d s' => MResult.ok d.type s'
  | MResult.error e s' => MResult.error e s'

/-- Modelled from the spec: the goal's user-facing tag
(`l_Lean_Meta_getMVarTag`). -/
def getMVarTag (mvarId : Nat) (ctx : Context) (s : State) : MResult Name :=
  match getMVarDecl mvarId ctx s with
  | MResult.ok d s' => MResult.ok d.userName s'
  | MResult.error e s' => MResult.error e s'

/-- Modelled from the spec: `checkNotAssigned(mvarId)` raises the
`AlreadyAssigned` tactic error when the goal already has a solution
(`l_Lean_Meta_checkNotAssigned`). -/
def checkNotAssigned (mvarId : Nat) (tac : Name) (_ctx : Context) (s : State) :
    MResult Unit :=
  if s.mctx.isExprAssigned mvarId then
    MResult.error (MetaErr.tacticEx tac mvarId TacticErrKind.alreadyAssigned) s
  else MResult.ok () s

/-- Modelled from the spec: `freshId()` mints the next identifier from the
state's generator (`l_Lean_Meta_mkFreshId___rarg`). -/
def mkFreshId (s : State) : Nat × State :=
  (s.ngen, { s with ngen := s.ngen + 1 })

/-- Modelled from the spec: `createMVar(type, ctx, tag)` allocates a new goal
metavariable over the current context (`l_Lean_Meta_mkFreshExprMVar`, called
with kind 2, synthetic-opaque). -/
def mkFreshExprMVar (type : Expr) (tag : Name) (kind : Nat) (ctx : Context) (s : State) :
    Expr × State :=
  let (id, s') := mkFreshId s
  (Expr.mvar id,
    { s' with
      mctx := s'.mctx.addDecl id
        ⟨tag, ctx.lctx, type, s'.mctx.depth, ctx.localInstances, kind⟩ })

/-- Modelled from the spec: lookup of the declaration of a free variable in
the current local context (`l_Lean_Meta_getFVarLocalDecl`). -/
def getFVarLocalDecl (fv : Expr) (ctx : Context) (s : State) : MResult LocalDecl :=
  match ctx.lctx.find? (exprFVarId fv) with
  | some d => MResult.ok d s
  | none => MResult.error (MetaErr.unknownFVar (exprFVarId fv)) s

/-- Modelled from the spec: replace occurrences of the listed free variables
by bound variables; the variable at position `p` of `xs` becomes de Bruijn
index `d + xs.length - 1 - p` at binder depth `d`. -/
def abstractRange (xs : List Nat) (d : Nat) : Expr → Expr
  | Expr.bvar i => Expr.bvar i
  | Expr.fvar id =>
      match xs.indexOf? id with
      | some p => Expr.bvar (d + xs.length - 1 - p)
      | none => Expr.fvar id
  | Expr.mvar id => Expr.mvar id
  | Expr.sort u => Expr.sort u
  | Expr.const nm => Expr.const nm
  | Expr.app f a => Expr.app (abstractRange xs d f) (abstractRange xs d a)
  | Expr.lam nm bi t b => Expr.lam nm bi (abstractRange xs d t) (abstractRange xs (d + 1) b)
  | Expr.forallE nm bi t b =>
      Expr.forallE nm bi (abstractRange xs d t) (abstractRange xs (d + 1) b)
  | Expr.letE nm t v b =>
      Expr.letE nm (abstractRange xs d t) (abstractRange xs d v) (abstractRange xs (d + 1) b)

/-- Helper for `mkBinding`: wrap the body with one binder per id, innermost
first (the argument list is the reversed id list). -/
def mkBindingRev (lctx : LocalContext) : List Nat → Expr → Expr
  | [], e => e
  | id :: rest, e =>
      let before := rest.reverse
      match lctx.find? id with
      | some (LocalDecl.cdecl _ nm t bi) =>
          mkBindingRev lctx rest (Expr.lam nm bi (abstractRange before 0 t) e)
      | some (LocalDecl.ldecl _ nm t v) =>
          mkBindingRev lctx rest
            (Expr.letE nm (abstractRange before 0 t) (abstractRange before 0 v) e)
      | none => mkBindingRev lctx rest e

/-- Modelled from the spec: the closing step of §4.4 — abstract the introduced
free variables back into nested binders around the new goal's metavariable
term, innermost first (`l_Lean_Meta_mkLambda`; a `Forall` hypothesis produces
a lambda, a `Let` hypothesis produces a let-term). -/
def mkBinding (lctx : LocalContext) (ids : List Nat) (e : Expr) : Expr :=
  mkBindingRev lctx ids.reverse (abstractRange ids 0 e)

/-- Tactic-error reporting wrapper (`l_Lean_Meta_throwTacticEx___rarg`). -/
def throwTacticEx {α : Type} (tac : Name) (mvarId : Nat) (kind : TacticErrKind)
    (s : State) : MResult α :=
  MResult.error (MetaErr.tacticEx tac mvarId kind) s

/-- Name selection per introduced hypothesis (`l_Lean_Meta_mkAuxName`): an
explicitly provided name is used verbatim unless it is the reserved
placeholder, in which case — as when the list is exhausted — the unused-name
oracle generates the name from the binder-name hint. -/
def mkAuxName (or : Oracles) (lctx : LocalContext) (binderName : Name) :
    List Name → Name × List Name
  | [] => (or.getUnusedName lctx binderName, [])
  | nm :: rest =>
      if nm = placeholderName then (or.getUnusedName lctx binderName, rest)
      else (nm, rest)

/-- Instance registration sweep
(`l_Lean_Meta_withNewLocalInstances___main___at_Lean_Meta_introN___spec__3` /
`__spec__4`), iterating over the pending free variables (the source walks the
array from index `j`; here the visited window is the corresponding list).  For
each variable, its declared type is classified by `isClassQuick`; a negative
answer leaves everything untouched, a positive answer `className` pushes
`LocalInstance{className, fvar}` onto the context's instance array and runs
the continuation under `resettingSynthInstanceCache` (reset to empty now,
restore the saved cache on exit), and an inconclusive answer defers to
`isClassExpensive` with the same update rule on a positive answer. -/
def withNewLocalInstancesList {α : Type} (or : Oracles)
    (k : Context → State → MResult α) :
    List Expr → Context → State → MResult α
  | [], ctx, s => k ctx s
  | fv :: rest, ctx, s =>
      match getFVarLocalDecl fv ctx s with
      | MResult.error e s' => MResult.error e s'
      | MResult.ok dd s1 =>
          match or.isClassQuick dd.type ctx s1 with
          | MResult.error e s' => MResult.error e s'
          | MResult.ok LOptionName.lnone s2 =>
              withNewLocalInstancesList or k rest ctx s2
          | MResult.ok (LOptionName.lsome className) s2 =>
              restoreSynth s2.cache.synthInstance
                (withNewLocalInstancesList or k rest
                  { ctx with localInstances := ctx.localInstances.push ⟨className, fv⟩ }
                  (setSynth [] s2))
          | MResult.ok LOptionName.lundef s2 =>
              match or.isClassExpensive dd.type ctx s2 with
              | MResult.error e s' => MResult.error e s'
              | MResult.ok none s3 => withNewLocalInstancesList or k rest ctx s3
              | MResult.ok (some className) s3 =>
                  restoreSynth s3.cache.synthInstance
                    (withNewLocalInstancesList or k rest
                      { ctx with
                        localInstances := ctx.localInstances.push ⟨className, fv⟩ }
                      (setSynth [] s3))

/-- Epilogue of the telescope peeling
(`l_Lean_Meta_introNCoreAux___main___rarg___lambda__2`, prefixed by the
`getMVarTag` bind): allocate the new goal over the residual type with the
original goal's tag, assign the original goal to the binder-closed term, and
return the substitution array together with the new goal's id. -/
def introNEpilogue (mvarId : Nat) (fvars : Array Expr) (type : Expr)
    (ctx : Context) (s : State) : MResult (Array Expr × Nat) :=
  match getMVarTag mvarId ctx s with
  | MResult.error e s' => MResult.error e s'
  | MResult.ok tag s1 =>
      let p := mkFreshExprMVar type tag 2 ctx s1
      let newVal := mkBinding ctx.lctx (fvars.toList.map exprFVarId) p.1
      MResult.ok (fvars, exprMVarId p.1)
        { p.2 with mctx := p.2.mctx.assignExpr mvarId newVal }

/-- Telescope peeling
(`l_Lean_Meta_introNCoreAux___main___at_Lean_Meta_introN___spec__2`): with `n`
binders still requested, a leading `forallE` or `letE` is peeled — domain and
value instantiated against the pending substitution window, a fresh id minted,
the name chosen by `mkAuxName`, the declaration appended, the free variable
pushed — and the body recursed into with `n - 1`; with `n = 0` the residual
type is instantiated and the epilogue runs under the instance-registration
sweep; any other head runs, under the same sweep, the `whnf` oracle on the
instantiated type, continuing on a `Forall` result (with the already
decremented counter, as the compiled source does) and failing with
`InsufficientBinders` otherwise. -/
def introNAux (or : Oracles) (mvarId : Nat) :
    Nat → LocalContext → Array Expr → Nat → List Name → Expr → Context → State →
    MResult (Array Expr × Nat)
  | 0, lctx, fvars, j, _names, type, ctx, s =>
      let type' := instantiateRevRange type j fvars.size fvars
      withNewLocalInstancesList or (introNEpilogue mvarId fvars type')
        (fvars.toList.drop j) { ctx with lctx := lctx } s
  | n + 1, lctx, fvars, j, names, type, ctx, s =>
      match type with
      | Expr.forallE binderName bi dom body =>
          let dom' := instantiateRevRange dom j fvars.size fvars
          let pid := mkFreshId s
          let pnm := mkAuxName or lctx binderName names
          introNAux or mvarId n (lctx.mkLocalDecl pid.1 pnm.1 dom' bi)
            (fvars.push (Expr.fvar pid.1)) j pnm.2 body ctx pid.2
      | Expr.letE binderName t v body =>
          let t' := instantiateRevRange t j fvars.size fvars
          let v' := instantiateRevRange v j fvars.size fvars
          let pid := mkFreshId s
          let pnm := mkAuxName or lctx binderName names
          introNAux or mvarId n (lctx.mkLetDecl pid.1 pnm.1 t' v')
            (fvars.push (Expr.fvar pid.1)) j pnm.2 body ctx pid.2
      | _ =>
          withNewLocalInstancesList or
            (fun c st =>
              match or.whnf (instantiateRevRange type j fvars.size fvars) c st with
              | MResult.error e s' => MResult.error e s'
              | MResult.ok newType s2 =>
                  if newType.isForall then
                    introNAux or mvarId n lctx fvars fvars.size names newType c s2
                  else
                    throwTacticEx introNTacticName mvarId
                      TacticErrKind.insufficientBinders s2)
            (fvars.toList.drop j) { ctx with lctx := lctx } s

/-- Pairwise comparison loop of the two instance arrays
(`l_Array_isEqvAux___main___at_Lean_Meta_introN___spec__6`), on the visited
elements as lists. -/
def isEqvInstList : List LocalInstance → List LocalInstance → Bool
  | [], _ => true
  | _ :: _, [] => true
  | x :: xs, y :: ys => decide (x = y) && isEqvInstList xs ys

/-- The guard test of `introNCore`: size comparison followed by the
element-wise `LocalInstance` comparison loop. -/
def instancesEqual (a b : Array LocalInstance) : Bool :=
  decide (a.size = b.size) && isEqvInstList a.toList b.toList

/-- Shared body of `introNCore`, run after the cache-coherence guard decided
whether to reset: the unassignedness check, the type fetch, the peeling loop
started with an empty substitution array, and the final projection of the
returned free-variable expressions to their ids. -/
def introNCoreBody (or : Oracles) (mvarId : Nat) (n : Nat) (names : List Name)
    (lctx0 : LocalContext) (ctx : Context) (s : State) : MResult (Array Nat × Nat) :=
  match checkNotAssigned mvarId introNTacticName ctx s with
  | MResult.error e s' => MResult.error e s'
  | MResult.ok _ s1 =>
      match getMVarType mvarId ctx s1 with
      | MResult.error e s' => MResult.error e s'
      | MResult.ok type s2 =>
          match introNAux or mvarId n lctx0 #[] 0 names type ctx s2 with
          | MResult.error e s' => MResult.error e s'
          | MResult.ok (fvars, newGoal) s3 =>
              MResult.ok (fvars.map exprFVarId, newGoal) s3

/-- Core entry point
(`l_Lean_Meta_introNCore___at_Lean_Meta_introN___spec__1`): fetch the goal's
declaration, move to its local context and instance array, and compare the
ambient instance array with the goal's — when element-wise equal the body runs
with the cache untouched, otherwise it runs inside
`resettingSynthInstanceCache` (cache reset to empty up front, the saved cache
restored afterwards on either outcome). -/
def introNCore (or : Oracles) (mvarId : Nat) (n : Nat) (names : List Name)
    (ctx : Context) (s : State) : MResult (Array Nat × Nat) :=
  match getMVarDecl mvarId ctx s with
  | MResult.error e s' => MResult.error e s'
  | MResult.ok d s1 =>
      let ctx' := { ctx with lctx := d.lctx, localInstances := d.localInstances }
      if instancesEqual ctx.localInstances d.localInstances then
        introNCoreBody or mvarId n names d.lctx ctx' s1
      else
        restoreSynth s1.cache.synthInstance
          (introNCoreBody or mvarId n names d.lctx ctx' (setSynth [] s1))

/-- Public operation `introN` (`l_Lean_Meta_introN`): the core entry point
itself. -/
def introN (or : Oracles) (mvarId : Nat) (n : Nat) (names : List Name)
    (ctx : Context) (s : State) : MResult (Array Nat × Nat) :=
  introNCore or mvarId n names ctx s

/-- Public operation `intro` (`l_Lean_Meta_intro`): the core entry point at
`n = 1` with the provided name as a singleton list, projecting out the sole
introduced id (via the array read with the `Inhabited` default, as in the
source). -/
def intro (or : Oracles) (mvarId : Nat) (nm : Name) (ctx : Context) (s : State) :
    MResult (Nat × Nat) :=
  match introNCore or mvarId 1 [nm] ctx s with
  | MResult.ok (ids, newGoal) s' => MResult.ok (ids.getD 0 0, newGoal) s'
  | MResult.error e s' => MResult.error e s'

/-- Public operation `intro1` (`l_Lean_Meta_intro1`): the core entry point at
`n = 1` with an empty name list (auto-naming), projecting out the sole
introduced id. -/
def intro1 (or : Oracles) (mvarId : Nat) (ctx : Context) (s : State) :
    MResult (Nat × Nat) :=
  match introNCore or mvarId 1 [] ctx s with
  | MResult.ok (ids, newGoal) s' => MResult.ok (ids.getD 0 0, newGoal) s'
  | MResult.error e s' => MResult.error e s'

/-! Supporting lemmas about the de Bruijn operations. -/

theorem closedBelow_mono {e : Expr} :
    ∀ {d d' : Nat}, d ≤ d' → ClosedBelow d e = true → ClosedBelow d' e = true := by
  induction e with
  | bvar i =>
      intro d d' h hc
      simp only [ClosedBelow, decide_eq_true_eq] at hc ⊢
      omega
  | app f a ihf iha =>
      intro d d' h hc
      simp only [ClosedBelow, Bool.and_eq_true] at hc ⊢
      exact ⟨ihf h hc.1, iha h hc.2⟩
  | lam nm bi t b iht ihb =>
      intro d d' h hc
      simp only [ClosedBelow, Bool.and_eq_true] at hc ⊢
      exact ⟨iht h hc.1, ihb (by omega) hc.2⟩
  | forallE nm bi t b iht ihb =>
      intro d d' h hc
      simp only [ClosedBelow, Bool.and_eq_true] at hc ⊢
      exact ⟨iht h hc.1, ihb (by omega) hc.2⟩
  | letE nm t v b iht ihv ihb =>
      intro d d' h hc
      simp only [ClosedBelow, Bool.and_eq_true] at hc ⊢
      exact ⟨⟨iht h hc.1.1, ihv h hc.1.2⟩, ihb (by omega) hc.2⟩
  | _ => intro d d' _ _; simp [ClosedBelow]

theorem liftLooseBVars_closed {e : Expr} :
    ∀ {s d : Nat}, ClosedBelow s e = true → liftLooseBVars s d e = e := by
  induction e with
  | bvar i =>
      intro s d hc
      simp only [ClosedBelow, decide_eq_true_eq] at hc
      simp [liftLooseBVars, hc]
  | app f a ihf iha =>
      intro s d hc
      simp only [ClosedBelow, Bool.and_eq_true] at hc
      simp [liftLooseBVars, ihf hc.1, iha hc.2]
  | lam nm bi t b iht ihb =>
      intro s d hc
      simp only [ClosedBelow, Bool.and_eq_true] at hc
      simp [liftLooseBVars, iht hc.1, ihb hc.2]
  | forallE nm bi t b iht ihb =>
      intro s d hc
      simp only [ClosedBelow, Bool.and_eq_true] at hc
      simp [liftLooseBVars, iht hc.1, ihb hc.2]
  | letE nm t v b iht ihv ihb =>
      intro s d hc
      simp only [ClosedBelow, Bool.and_eq_true] at hc
      simp [liftLooseBVars, iht hc.1.1, ihv hc.1.2, ihb hc.2]
  | _ => intro s d _; simp [liftLooseBVars]

theorem instRevList_closed {ys : List Expr} {e : Expr} :
    ∀ {d : Nat}, ClosedBelow d e = true → instRevList ys d e = e := by
  induction e with
  | bvar i =>
      intro d hc
      simp only [ClosedBelow, decide_eq_true_eq] at hc
      simp [instRevList, hc]
  | app f a ihf iha =>
      intro d hc
      simp only [ClosedBelow, Bool.and_eq_true] at hc
      simp [instRevList, ihf hc.1, iha hc.2]
  | lam nm bi t b iht ihb =>
      intro d hc
      simp only [ClosedBelow, Bool.and_eq_true] at hc
      simp [instRevList, iht hc.1, ihb hc.2]
  | forallE nm bi t b iht ihb =>
      intro d hc
      simp only [ClosedBelow, Bool.and_eq_true] at hc
      simp [instRevList, iht hc.1, ihb hc.2]
  | letE nm t v b iht ihv ihb =>
      intro d hc
      simp only [ClosedBelow, Bool.and_eq_true] at hc
      simp [instRevList, iht hc.1.1, ihv hc.1.2, ihb hc.2]
  | _ => intro d _; simp [instRevList]

theorem instRevList_nil {e : Expr} : ∀ {d : Nat}, instRevList [] d e = e := by
  induction e with
  | bvar i => intro d; simp [instRevList]
  | app f a ihf iha => intro d; simp [instRevList, ihf, iha]
  | lam nm bi t b iht ihb => intro d; simp [instRevList, iht, ihb]
  | forallE nm bi t b iht ihb => intro d; simp [instRevList, iht, ihb]
  | letE nm t v b iht ihv ihb => intro d; simp [instRevList, iht, ihv, ihb]
  | _ => intro d; simp [instRevList]

theorem instRevList_bvar (ys : List Expr) (d i : Nat) :
    instRevList ys d (Expr.bvar i) =
      if i < d then Expr.bvar i
      else if i - d < ys.length then
        liftLooseBVars 0 d (ys.getD (ys.length - 1 - (i - d)) (Expr.bvar 0))
      else Expr.bvar (i - ys.length) := rfl

theorem instRevList_snoc {ys : List Expr} {x : Expr}
    (hys : ∀ y ∈ ys, ClosedBelow 0 y = true) (_hx : ClosedBelow 0 x = true) {e : Expr} :
    ∀ {d : Nat}, instRevList (ys ++ [x]) d e = instRevList [x] d (instRevList ys (d + 1) e) := by
  induction e with
  | bvar i =>
      intro d
      have hlen : (ys ++ [x]).length = ys.length + 1 := by simp
      rw [instRevList_bvar (ys ++ [x]) d i, instRevList_bvar ys (d + 1) i, hlen]
      by_cases h1 : i < d
      · rw [if_pos h1, if_pos (by omega : i < d + 1), instRevList_bvar [x] d i, if_pos h1]
      · rw [if_neg h1]
        by_cases h2 : i = d
        · subst h2
          rw [if_pos (by omega : i - i < ys.length + 1)]
          rw [show ys.length + 1 - 1 - (i - i) = ys.length from by omega]
          rw [List.getD_append_right ys [x] _ ys.length (le_refl _), Nat.sub_self]
          rw [if_pos (by omega : i < i + 1), instRevList_bvar [x] i i, if_neg h1]
          rw [if_pos (by simp : i - i < [x].length)]
          rw [show [x].length - 1 - (i - i) = 0 from by simp]
        · have h3 : d < i := by omega
          rw [if_neg (by omega : ¬ i < d + 1)]
          by_cases h4 : i - d < ys.length + 1
          · have hkl : 1 ≤ i - d := by omega
            have hin : i - (d + 1) < ys.length := by omega
            have hrange : ys.length - (i - d) < ys.length := by omega
            rw [if_pos h4, if_pos hin]
            rw [show ys.length + 1 - 1 - (i - d) = ys.length - (i - d) from by omega]
            rw [show ys.length - 1 - (i - (d + 1)) = ys.length - (i - d) from by omega]
            rw [List.getD_append ys [x] _ _ hrange]
            have hy : ys.getD (ys.length - (i - d)) (Expr.bvar 0) ∈ ys := by
              rw [List.getD_eq_getElem _ _ hrange]
              exact List.getElem_mem hrange
            have hyc : ClosedBelow 0 (ys.getD (ys.length - (i - d)) (Expr.bvar 0)) = true :=
              hys _ hy
            rw [liftLooseBVars_closed hyc, liftLooseBVars_closed hyc]
            exact (instRevList_closed (closedBelow_mono (Nat.zero_le d) hyc)).symm
          · rw [if_neg (by omega : ¬ i - d < ys.length + 1)]
            rw [if_neg (by omega : ¬ i - (d + 1) < ys.length)]
            rw [instRevList_bvar [x] d (i - ys.length)]
            rw [if_neg (by omega : ¬ i - ys.length < d)]
            rw [if_neg (by simp only [List.length_cons, List.length_nil]; omega :
              ¬ i - ys.length - d < [x].length)]
            simp only [List.length_cons, List.length_nil]
            congr 1
  | app f a ihf iha => intro d; simp [instRevList, ihf, iha]
  | lam nm bi t b iht ihb => intro d; simp [instRevList, iht, ihb]
  | forallE nm bi t b iht ihb => intro d; simp [instRevList, iht, ihb]
  | letE nm t v b iht ihv ihb => intro d; simp [instRevList, iht, ihv, ihb]
  | _ => intro d; simp [instRevList]

theorem peelTele_of_stripN :
    ∀ (n : Nat) (B : Expr) (ys xs : List Expr),
      (∀ y ∈ ys, ClosedBelow 0 y = true) → (∀ y ∈ xs, ClosedBelow 0 y = true) →
      xs.length = n → n ≤ leadingBinders B →
      peelTele (instRevList ys 0 B) xs = some (instRevList (ys ++ xs) 0 (stripN n B)) := by
  intro n
  induction n with
  | zero =>
      intro B ys xs _ _ hlen _
      have hxs : xs = [] := List.eq_nil_of_length_eq_zero hlen
      subst hxs
      simp [peelTele, stripN]
  | succ n ih =>
      intro B ys xs hys hxs hlen hlead
      match xs with
      | [] => simp at hlen
      | x :: xs' =>
          have hx : ClosedBelow 0 x = true := hxs x (by simp)
          have hxs' : ∀ y ∈ xs', ClosedBelow 0 y = true := fun y hy => hxs y (by simp [hy])
          have hlen' : xs'.length = n := by simpa using hlen
          match B with
          | Expr.forallE nm bi t b =>
              have hlead' : n ≤ leadingBinders b := by
                simp only [leadingBinders] at hlead; omega
              rw [show instRevList ys 0 (Expr.forallE nm bi t b)
                  = Expr.forallE nm bi (instRevList ys 0 t) (instRevList ys 1 b) from rfl]
              rw [show peelTele (Expr.forallE nm bi (instRevList ys 0 t) (instRevList ys 1 b))
                    (x :: xs') = peelTele (instRevList [x] 0 (instRevList ys 1 b)) xs' from rfl]
              rw [← instRevList_snoc hys hx]
              rw [ih b (ys ++ [x]) xs'
                (by intro y hy
                    rcases List.mem_append.mp hy with h | h
                    · exact hys y h
                    · simp at h; subst h; exact hx)
                hxs' hlen' hlead']
              rw [List.append_assoc]
              rfl
          | Expr.letE nm t v b =>
              have hlead' : n ≤ leadingBinders b := by
                simp only [leadingBinders] at hlead; omega
              rw [show instRevList ys 0 (Expr.letE nm t v b)
                  = Expr.letE nm (instRevList ys 0 t) (instRevList ys 0 v)
                      (instRevList ys 1 b) from rfl]
              rw [show peelTele (Expr.letE nm (instRevList ys 0 t) (instRevList ys 0 v)
                    (instRevList ys 1 b)) (x :: xs')
                  = peelTele (instRevList [x] 0 (instRevList ys 1 b)) xs' from rfl]
              rw [← instRevList_snoc hys hx]
              rw [ih b (ys ++ [x]) xs'
                (by intro y hy
                    rcases List.mem_append.mp hy with h | h
                    · exact hys y h
                    · simp at h; subst h; exact hx)
                hxs' hlen' hlead']
              rw [List.append_assoc]
              rfl
          | Expr.bvar i => simp [leadingBinders] at hlead
          | Expr.fvar id => simp [leadingBinders] at hlead
          | Expr.mvar id => simp [leadingBinders] at hlead
          | Expr.sort u => simp [leadingBinders] at hlead
          | Expr.const nm => simp [leadingBinders] at hlead
          | Expr.app f a => simp [leadingBinders] at hlead
          | Expr.lam nm bi t b => simp [leadingBinders] at hlead

theorem instantiateRevRange_full (e : Expr) (xs : Array Expr) :
    instantiateRevRange e 0 xs.size xs = instRevList xs.toList 0 e := by
  simp [instantiateRevRange, List.drop_zero, ← Array.length_toList, List.take_length]

theorem instantiateRevRange_empty (e : Expr) :
    instantiateRevRange e 0 0 (#[] : Array Expr) = e := by
  simp [instantiateRevRange, instRevList_nil]

/-! Supporting lemmas about the state threading and the store. -/

theorem mapResState_id {α : Type} (r : MResult α) : mapResState id r = r := by
  cases r <;> rfl

theorem mapResState_comp {α : Type} (g1 g2 : State → State) (r : MResult α) :
    mapResState g1 (mapResState g2 r) = mapResState (fun st => g1 (g2 st)) r := by
  cases r <;> rfl

theorem restoreSynth_mapResState {α : Type} (c : SynthCache) (g : State → State)
    (r : MResult α) :
    restoreSynth c (mapResState g r) = mapResState (fun st => setSynth c (g st)) r := by
  cases r <;> rfl

theorem setSynth_setSynth (c c' : SynthCache) (st : State) :
    setSynth c (setSynth c' st) = setSynth c st := rfl

theorem setSynth_self (st : State) : setSynth st.cache.synthInstance st = st := rfl

/-- State transformations that only touch the cache. -/
def CacheOnly (g : State → State) : Prop :=
  ∀ st, (g st).mctx = st.mctx ∧ (g st).ngen = st.ngen

theorem cacheOnly_id : CacheOnly id := fun _ => ⟨rfl, rfl⟩

theorem cacheOnly_setSynth (c : SynthCache) : CacheOnly (setSynth c) := fun _ => ⟨rfl, rfl⟩

theorem cacheOnly_comp {g1 g2 : State → State} (h1 : CacheOnly g1) (h2 : CacheOnly g2) :
    CacheOnly (fun st => g1 (g2 st)) := by
  intro st
  exact ⟨((h1 (g2 st)).1).trans (h2 st).1, ((h1 (g2 st)).2).trans (h2 st).2⟩

theorem findDeclList_append (l1 l2 : List LocalDecl) (id : Nat) :
    findDeclList (l1 ++ l2) id =
      match findDeclList l1 id with
      | some d => some d
      | none => findDeclList l2 id := by
  induction l1 with
  | nil => simp [findDeclList]
  | cons dd rest ih =>
      by_cases h : dd.fvarId = id
      · simp [findDeclList, h]
      · simp only [List.cons_append, findDeclList, if_neg h]
        exact ih

theorem find?_mkLocalDecl_isSome (lctx : LocalContext) (fvarId : Nat) (nm : Name)
    (t : Expr) (bi : BinderInfo) (x : Nat)
    (h : (lctx.find? x).isSome = true ∨ x = fvarId) :
    ((lctx.mkLocalDecl fvarId nm t bi).find? x).isSome = true := by
  simp only [LocalContext.find?, LocalContext.mkLocalDecl, findDeclList_append]
  rcases h with h | h
  · rcases Option.isSome_iff_exists.mp h with ⟨d, hd⟩
    simp only [LocalContext.find?] at hd
    simp [hd]
  · subst h
    cases hfind : findDeclList lctx.decls x
    · simp [findDeclList, LocalDecl.fvarId]
    · simp

theorem find?_mkLetDecl_isSome (lctx : LocalContext) (fvarId : Nat) (nm : Name)
    (t v : Expr) (x : Nat)
    (h : (lctx.find? x).isSome = true ∨ x = fvarId) :
    ((lctx.mkLetDecl fvarId nm t v).find? x).isSome = true := by
  simp only [LocalContext.find?, LocalContext.mkLetDecl, findDeclList_append]
  rcases h with h | h
  · rcases Option.isSome_iff_exists.mp h with ⟨d, hd⟩
    simp only [LocalContext.find?] at hd
    simp [hd]
  · subst h
    cases hfind : findDeclList lctx.decls x
    · simp [findDeclList, LocalDecl.fvarId]
    · simp

theorem findDecl?_addDecl_self (mctx : MetavarContext) (id : Nat) (d : MetavarDecl) :
    (mctx.addDecl id d).findDecl? id = some d := by
  simp [MetavarContext.findDecl?, MetavarContext.addDecl, List.find?]

theorem findDecl?_assignExpr (mctx : MetavarContext) (m : Nat) (e : Expr) (x : Nat) :
    (mctx.assignExpr m e).findDecl? x = mctx.findDecl? x := rfl

theorem isExprAssigned_assignExpr_self (mctx : MetavarContext) (m : Nat) (e : Expr) :
    (mctx.assignExpr m e).isExprAssigned m = true := by
  simp [MetavarContext.isExprAssigned, MetavarContext.assignExpr, List.find?]

/-- Well-behaved classifier oracle: it always answers, leaving the
metavariable context and the fresh-id generator as they were. -/
def OracleRuns {α : Type} (f : Expr → Context → State → MResult α) : Prop :=
  ∀ e c st, ∃ r st', f e c st = MResult.ok r st' ∧ st'.mctx = st.mctx ∧ st'.ngen = st.ngen

/-- Oracle that never touches the metavariable context, whether it answers or
fails. -/
def PreservesMctx {α : Type} (f : Expr → Context → State → MResult α) : Prop :=
  ∀ e c st, ((f e c st).state).mctx = st.mctx

theorem wNLI_runs {α : Type} (or : Oracles)
    (hq : OracleRuns or.isClassQuick) (he : OracleRuns or.isClassExpensive)
    (k : Context → State → MResult α) :
    ∀ (l : List Expr) (ctx : Context) (s : State),
      (∀ fv ∈ l, (ctx.lctx.find? (exprFVarId fv)).isSome = true) →
      ∃ ctx' s' g, CacheOnly g ∧
        withNewLocalInstancesList or k l ctx s = mapResState g (k ctx' s') ∧
        ctx'.lctx = ctx.lctx ∧ s'.mctx = s.mctx ∧ s'.ngen = s.ngen := by
  intro l
  induction l with
  | nil =>
      intro ctx s _
      exact ⟨ctx, s, id, cacheOnly_id,
        by rw [mapResState_id]; rfl, rfl, rfl, rfl⟩
  | cons fv rest ih =>
      intro ctx s hFv
      have hfv : (ctx.lctx.find? (exprFVarId fv)).isSome = true := hFv fv (by simp)
      rcases Option.isSome_iff_exists.mp hfv with ⟨dd, hdd⟩
      rcases hq dd.type ctx s with ⟨r, s2, hq1, hq2, hq3⟩
      have hrest : ∀ x ∈ rest, (ctx.lctx.find? (exprFVarId x)).isSome = true :=
        fun x hx => hFv x (by simp [hx])
      cases r with
      | lnone =>
          rcases ih ctx s2 hrest with ⟨ctx', s', g, hg, heq, hl, hm, hn⟩
          refine ⟨ctx', s', g, hg, ?_, hl, hm.trans hq2, hn.trans hq3⟩
          simp only [withNewLocalInstancesList, getFVarLocalDecl, hdd, hq1]
          exact heq
      | lsome className =>
          have hrest' : ∀ x ∈ rest,
              (({ ctx with localInstances :=
                  ctx.localInstances.push ⟨className, fv⟩ } : Context).lctx.find?
                (exprFVarId x)).isSome = true := hrest
          rcases ih { ctx with localInstances := ctx.localInstances.push ⟨className, fv⟩ }
            (setSynth [] s2) hrest' with ⟨ctx', s', g, hg, heq, hl, hm, hn⟩
          refine ⟨ctx', s', fun st => setSynth s2.cache.synthInstance (g st),
            cacheOnly_comp (cacheOnly_setSynth _) hg, ?_, hl, ?_, ?_⟩
          · simp only [withNewLocalInstancesList, getFVarLocalDecl, hdd, hq1]
            rw [heq, restoreSynth_mapResState]
          · exact hm.trans (hq2 ▸ rfl)
          · exact hn.trans (hq3 ▸ rfl)
      | lundef =>
          rcases he dd.type ctx s2 with ⟨r2, s3, he1, he2, he3⟩
          cases r2 with
          | none =>
              rcases ih ctx s3 hrest with ⟨ctx', s', g, hg, heq, hl, hm, hn⟩
              refine ⟨ctx', s', g, hg, ?_, hl,
                hm.trans (he2.trans hq2), hn.trans (he3.trans hq3)⟩
              simp only [withNewLocalInstancesList, getFVarLocalDecl, hdd, hq1, he1]
              exact heq
          | some className =>
              have hrest' : ∀ x ∈ rest,
                  (({ ctx with localInstances :=
                      ctx.localInstances.push ⟨className, fv⟩ } : Context).lctx.find?
                    (exprFVarId x)).isSome = true := hrest
              rcases ih { ctx with
                  localInstances := ctx.localInstances.push ⟨className, fv⟩ }
                (setSynth [] s3) hrest' with ⟨ctx', s', g, hg, heq, hl, hm, hn⟩
              refine ⟨ctx', s', fun st => setSynth s3.cache.synthInstance (g st),
                cacheOnly_comp (cacheOnly_setSynth _) hg, ?_, hl, ?_, ?_⟩
              · simp only [withNewLocalInstancesList, getFVarLocalDecl, hdd, hq1, he1]
                rw [heq, restoreSynth_mapResState]
              · exact hm.trans ((he2.trans hq2) ▸ rfl)
              · exact hn.trans ((he3.trans hq3) ▸ rfl)

theorem introNEpilogue_run (mvarId : Nat) (fvars : Array Expr) (ty : Expr)
    (ctx : Context) (s : State) (d0 : MetavarDecl)
    (hD : s.mctx.findDecl? mvarId = some d0) :
    introNEpilogue mvarId fvars ty ctx s =
      MResult.ok (fvars, s.ngen)
        { s with
          ngen := s.ngen + 1,
          mctx := (s.mctx.addDecl s.ngen
              ⟨d0.userName, ctx.lctx, ty, s.mctx.depth, ctx.localInstances, 2⟩).assignExpr
            mvarId
            (mkBinding ctx.lctx (fvars.toList.map exprFVarId) (Expr.mvar s.ngen)) } := by
  simp only [introNEpilogue, getMVarTag, getMVarDecl, hD, mkFreshExprMVar, mkFreshId,
    exprMVarId]

/-- Fresh ids and their free-variable expressions chained from a generator
value: the shape of the substitution list produced by peeling `n` binders. -/
def freshFVarList (base n : Nat) : List Expr :=
  (List.range n).map (fun i => Expr.fvar (base + i))

theorem freshFVarList_zero (base : Nat) : freshFVarList base 0 = [] := rfl

theorem freshFVarList_succ (base n : Nat) :
    freshFVarList base (n + 1) = Expr.fvar base :: freshFVarList (base + 1) n := by
  simp only [freshFVarList, List.range_succ_eq_map, List.map_cons, List.map_map,
    Nat.add_zero]
  refine congrArg _ ?_
  apply List.map_congr_left
  intro i _
  have h : base + (i + 1) = base + 1 + i := by omega
  simp [Function.comp, h]

theorem freshFVarList_closed (base n : Nat) :
    ∀ y ∈ freshFVarList base n, ClosedBelow 0 y = true := by
  intro y hy
  simp only [freshFVarList, List.mem_map] at hy
  rcases hy with ⟨i, _, hi⟩
  subst hi
  rfl

theorem introNAux_run (or : Oracles)
    (hq : OracleRuns or.isClassQuick) (he : OracleRuns or.isClassExpensive)
    (mvarId : Nat) :
    ∀ (n : Nat) (B : Expr) (lctx : LocalContext) (fvars : Array Expr)
      (names : List Name) (ctx : Context) (s : State),
      n ≤ leadingBinders B →
      (s.mctx.findDecl? mvarId).isSome = true →
      (∀ fv ∈ fvars.toList, (lctx.find? (exprFVarId fv)).isSome = true) →
      ∃ s' d' arr,
        introNAux or mvarId n lctx fvars 0 names B ctx s =
          MResult.ok (arr, s.ngen + n) s' ∧
        arr.toList = fvars.toList ++ freshFVarList s.ngen n ∧
        s'.mctx.findDecl? (s.ngen + n) = some d' ∧
        d'.type = instRevList (fvars.toList ++ freshFVarList s.ngen n) 0 (stripN n B) := by
  intro n
  induction n with
  | zero =>
      intro B lctx fvars names ctx s _ hD hFv
      rcases Option.isSome_iff_exists.mp hD with ⟨d0, hd0⟩
      rw [show introNAux or mvarId 0 lctx fvars 0 names B ctx s
          = withNewLocalInstancesList or
              (introNEpilogue mvarId fvars (instantiateRevRange B 0 fvars.size fvars))
              (fvars.toList.drop 0) { ctx with lctx := lctx } s from rfl]
      rw [List.drop_zero]
      rcases wNLI_runs or hq he
          (introNEpilogue mvarId fvars (instantiateRevRange B 0 fvars.size fvars))
          fvars.toList { ctx with lctx := lctx } s hFv with
        ⟨ctx2, s2, g, hg, heq, hl2, hm2, hn2⟩
      rw [heq]
      rw [introNEpilogue_run mvarId fvars _ ctx2 s2 d0 (by rw [hm2]; exact hd0)]
      refine ⟨g { s2 with
          ngen := s2.ngen + 1,
          mctx := (s2.mctx.addDecl s2.ngen
              ⟨d0.userName, ctx2.lctx, instantiateRevRange B 0 fvars.size fvars,
                s2.mctx.depth, ctx2.localInstances, 2⟩).assignExpr mvarId
            (mkBinding ctx2.lctx (fvars.toList.map exprFVarId) (Expr.mvar s2.ngen)) },
        ⟨d0.userName, ctx2.lctx, instantiateRevRange B 0 fvars.size fvars,
          s2.mctx.depth, ctx2.localInstances, 2⟩, fvars, ?_, ?_, ?_, ?_⟩
      · simp only [mapResState, hn2, Nat.add_zero]
      · simp [freshFVarList_zero]
      · rw [(hg _).1]
        rw [show s.ngen + 0 = s2.ngen from by rw [hn2, Nat.add_zero]]
        exact findDecl?_addDecl_self _ _ _
      · simp only [stripN, freshFVarList_zero, List.append_nil]
        exact instantiateRevRange_full B fvars
  | succ n ih =>
      intro B lctx fvars names ctx s hlead hD hFv
      match B with
      | Expr.forallE binderName bi dom body =>
          have hlead' : n ≤ leadingBinders body := by
            simp only [leadingBinders] at hlead; omega
          rw [show introNAux or mvarId (n + 1) lctx fvars 0 names
                (Expr.forallE binderName bi dom body) ctx s
              = introNAux or mvarId n
                  (lctx.mkLocalDecl s.ngen
                    (mkAuxName or lctx binderName names).1
                    (instantiateRevRange dom 0 fvars.size fvars) bi)
                  (fvars.push (Expr.fvar s.ngen)) 0
                  (mkAuxName or lctx binderName names).2 body ctx
                  { s with ngen := s.ngen + 1 } from rfl]
          have hFv' : ∀ fv ∈ (fvars.push (Expr.fvar s.ngen)).toList,
              ((lctx.mkLocalDecl s.ngen (mkAuxName or lctx binderName names).1
                  (instantiateRevRange dom 0 fvars.size fvars) bi).find?
                (exprFVarId fv)).isSome = true := by
            intro fv hfv
            rw [Array.push_toList] at hfv
            rcases List.mem_append.mp hfv with h | h
            · exact find?_mkLocalDecl_isSome _ _ _ _ _ _ (Or.inl (hFv fv h))
            · simp at h; subst h
              exact find?_mkLocalDecl_isSome _ _ _ _ _ _ (Or.inr rfl)
          rcases ih body _ (fvars.push (Expr.fvar s.ngen))
            (mkAuxName or lctx binderName names).2 ctx { s with ngen := s.ngen + 1 }
            hlead' hD hFv' with ⟨s', d', arr, h1, h2, h3, h4⟩
          refine ⟨s', d', arr, ?_, ?_, ?_, ?_⟩
          · rw [h1]
            rw [show s.ngen + 1 + n = s.ngen + (n + 1) from by omega]
          · rw [h2, Array.push_toList, List.append_assoc,
              freshFVarList_succ s.ngen n]
            rfl
          · rw [show s.ngen + (n + 1) = s.ngen + 1 + n from by omega]
            exact h3
          · rw [h4, Array.push_toList, List.append_assoc, freshFVarList_succ s.ngen n]
            rfl
      | Expr.letE binderName t v body =>
          have hlead' : n ≤ leadingBinders body := by
            simp only [leadingBinders] at hlead; omega
          rw [show introNAux or mvarId (n + 1) lctx fvars 0 names
                (Expr.letE binderName t v body) ctx s
              = introNAux or mvarId n
                  (lctx.mkLetDecl s.ngen
                    (mkAuxName or lctx binderName names).1
                    (instantiateRevRange t 0 fvars.size fvars)
                    (instantiateRevRange v 0 fvars.size fvars))
                  (fvars.push (Expr.fvar s.ngen)) 0
                  (mkAuxName or lctx binderName names).2 body ctx
                  { s with ngen := s.ngen + 1 } from rfl]
          have hFv' : ∀ fv ∈ (fvars.push (Expr.fvar s.ngen)).toList,
              ((lctx.mkLetDecl s.ngen (mkAuxName or lctx binderName names).1
                  (instantiateRevRange t 0 fvars.size fvars)
                  (instantiateRevRange v 0 fvars.size fvars)).find?
                (exprFVarId fv)).isSome = true := by
            intro fv hfv
            rw [Array.push_toList] at hfv
            rcases List.mem_append.mp hfv with h | h
            · exact find?_mkLetDecl_isSome _ _ _ _ _ _ (Or.inl (hFv fv h))
            · simp at h; subst h
              exact find?_mkLetDecl_isSome _ _ _ _ _ _ (Or.inr rfl)
          rcases ih body _ (fvars.push (Expr.fvar s.ngen))
            (mkAuxName or lctx binderName names).2 ctx { s with ngen := s.ngen + 1 }
            hlead' hD hFv' with ⟨s', d', arr, h1, h2, h3, h4⟩
          refine ⟨s', d', arr, ?_, ?_, ?_, ?_⟩
          · rw [h1]
            rw [show s.ngen + 1 + n = s.ngen + (n + 1) from by omega]
          · rw [h2, Array.push_toList, List.append_assoc,
              freshFVarList_succ s.ngen n]
            rfl
          · rw [show s.ngen + (n + 1) = s.ngen + 1 + n from by omega]
            exact h3
          · rw [h4, Array.push_toList, List.append_assoc, freshFVarList_succ s.ngen n]
            rfl
      | Expr.bvar i => simp [leadingBinders] at hlead
      | Expr.fvar id => simp [leadingBinders] at hlead
      | Expr.mvar id => simp [leadingBinders] at hlead
      | Expr.sort u => simp [leadingBinders] at hlead
      | Expr.const nm => simp [leadingBinders] at hlead
      | Expr.app f a => simp [leadingBinders] at hlead
      | Expr.lam nm bi t b => simp [leadingBinders] at hlead

/-- Projection applied by `introNCore` to a finished run of the peeling loop:
the returned free-variable expressions become their ids. -/
def mapOkIds : MResult (Array Expr × Nat) → MResult (Array Nat × Nat)
  | MResult.ok (fvars, newGoal) s => MResult.ok (fvars.map exprFVarId, newGoal) s
  | MResult.error e s => MResult.error e s

theorem introNCoreBody_eq_mapOkIds (or : Oracles) (mvarId : Nat) (n : Nat)
    (names : List Name) (lctx0 : LocalContext) (ctx : Context) (s : State)
    (d : MetavarDecl) (hD : s.mctx.findDecl? mvarId = some d)
    (hA : s.mctx.isExprAssigned mvarId = false) :
    introNCoreBody or mvarId n names lctx0 ctx s =
      mapOkIds (introNAux or mvarId n lctx0 #[] 0 names d.type ctx s) := by
  simp only [introNCoreBody, checkNotAssigned, hA, Bool.false_eq_true, if_false,
    getMVarType, getMVarDecl, hD]
  cases introNAux or mvarId n lctx0 #[] 0 names d.type ctx s with
  | ok v s' => cases v; rfl
  | error e s' => rfl

theorem introNCore_run (or : Oracles) (mvarId : Nat) (n : Nat) (names : List Name)
    (ctx : Context) (s : State) (d : MetavarDecl)
    (hD : s.mctx.findDecl? mvarId = some d)
    (hA : s.mctx.isExprAssigned mvarId = false) :
    ∃ s0 g, CacheOnly g ∧ s0.mctx = s.mctx ∧ s0.ngen = s.ngen ∧
      introN or mvarId n names ctx s =
        mapResState g (mapOkIds (introNAux or mvarId n d.lctx #[] 0 names d.type
          { ctx with lctx := d.lctx, localInstances := d.localInstances } s0)) := by
  by_cases hi : instancesEqual ctx.localInstances d.localInstances = true
  · refine ⟨s, id, cacheOnly_id, rfl, rfl, ?_⟩
    rw [mapResState_id]
    simp only [introN, introNCore, getMVarDecl, hD, hi, if_true]
    exact introNCoreBody_eq_mapOkIds or mvarId n names d.lctx _ s d hD hA
  · refine ⟨setSynth [] s, setSynth s.cache.synthInstance,
      cacheOnly_setSynth _, rfl, rfl, ?_⟩
    simp only [introN, introNCore, getMVarDecl, hD, hi, Bool.false_eq_true, if_false]
    rw [introNCoreBody_eq_mapOkIds or mvarId n names d.lctx _ (setSynth [] s) d hD hA]
    rfl

/-! The cache-coherence guard test decides exactly array equality. -/

theorem isEqvInstList_iff (xs : List LocalInstance) :
    ∀ ys : List LocalInstance, xs.length = ys.length →
      (isEqvInstList xs ys = true ↔ xs = ys) := by
  induction xs with
  | nil =>
      intro ys hlen
      have : ys = [] := (List.eq_nil_of_length_eq_zero hlen.symm)
      subst this
      simp [isEqvInstList]
  | cons x xs ih =>
      intro ys hlen
      match ys with
      | [] => simp at hlen
      | y :: ys' =>
          have hlen' : xs.length = ys'.length := by simpa using hlen
          simp only [isEqvInstList, Bool.and_eq_true, decide_eq_true_eq]
          constructor
          · rintro ⟨h1, h2⟩
            rw [h1, (ih ys' hlen').mp h2]
          · intro h
            injection h with h1 h2
            exact ⟨h1, (ih ys' hlen').mpr h2⟩

theorem instancesEqual_iff (a b : Array LocalInstance) :
    instancesEqual a b = true ↔ a = b := by
  simp only [instancesEqual, Bool.and_eq_true, decide_eq_true_eq]
  constructor
  · rintro ⟨h1, h2⟩
    have hlen : a.toList.length = b.toList.length := by
      simpa [Array.length_toList] using h1
    have := (isEqvInstList_iff a.toList b.toList hlen).mp h2
    cases a; cases b
    simpa using this
  · intro h
    subst h
    refine ⟨rfl, ?_⟩
    have : ∀ xs : List LocalInstance, isEqvInstList xs xs = true := by
      intro xs
      induction xs with
      | nil => rfl
      | cons x xs ih => simp [isEqvInstList, ih]
    exact this a.toList

/-! Preservation of the metavariable context on error paths. -/

theorem wNLI_error_mctx {α : Type} (or : Oracles)
    (hq : PreservesMctx or.isClassQuick) (he : PreservesMctx or.isClassExpensive)
    (k : Context → State → MResult α)
    (hk : ∀ c st e s', k c st = MResult.error e s' → s'.mctx = st.mctx) :
    ∀ (l : List Expr) (ctx : Context) (s : State) (e : MetaErr) (s' : State),
      withNewLocalInstancesList or k l ctx s = MResult.error e s' → s'.mctx = s.mctx := by
  intro l
  induction l with
  | nil =>
      intro ctx s e s' h
      exact hk ctx s e s' h
  | cons fv rest ih =>
      intro ctx s e s' h
      rw [show withNewLocalInstancesList or k (fv :: rest) ctx s
          = match getFVarLocalDecl fv ctx s with
            | MResult.error e s' => MResult.error e s'
            | MResult.ok dd s1 =>
                match or.isClassQuick dd.type ctx s1 with
                | MResult.error e s' => MResult.error e s'
                | MResult.ok LOptionName.lnone s2 =>
                    withNewLocalInstancesList or k rest ctx s2
                | MResult.ok (LOptionName.lsome className) s2 =>
                    restoreSynth s2.cache.synthInstance
                      (withNewLocalInstancesList or k rest
                        { ctx with
                          localInstances := ctx.localInstances.push ⟨className, fv⟩ }
                        (setSynth [] s2))
                | MResult.ok LOptionName.lundef s2 =>
                    match or.isClassExpensive dd.type ctx s2 with
                    | MResult.error e s' => MResult.error e s'
                    | MResult.ok none s3 => withNewLocalInstancesList or k rest ctx s3
                    | MResult.ok (some className) s3 =>
                        restoreSynth s3.cache.synthInstance
                          (withNewLocalInstancesList or k rest
                            { ctx with
                              localInstances := ctx.localInstances.push ⟨className, fv⟩ }
                            (setSynth [] s3)) from rfl] at h
      cases hg : getFVarLocalDecl fv ctx s with
      | error eg sg =>
          rw [hg] at h
          dsimp only at h
          cases h
          cases fv <;> simp only [getFVarLocalDecl] at hg <;>
            (cases hfind : LocalContext.find? ctx.lctx _ <;> rw [hfind] at hg <;>
              first
                | (injection hg with h1 h2; rw [← h2])
                | cases hg)
      | ok dd s1 =>
          rw [hg] at h
          dsimp only at h
          have hs1 : s1.mctx = s.mctx := by
            simp only [getFVarLocalDecl] at hg
            cases hfind : LocalContext.find? ctx.lctx (exprFVarId fv) <;> rw [hfind] at hg
            · cases hg
            · injection hg with h1 h2
              rw [← h2]
          cases hq2 : or.isClassQuick dd.type ctx s1 with
          | error eq2 sq2 =>
              rw [hq2] at h
              dsimp only at h
              cases h
              have := hq dd.type ctx s1
              rw [hq2] at this
              simp only [MResult.state] at this
              rw [this, hs1]
          | ok r s2 =>
              have hs2 : s2.mctx = s.mctx := by
                have := hq dd.type ctx s1
                rw [hq2] at this
                simp only [MResult.state] at this
                rw [this, hs1]
              rw [hq2] at h
              cases r with
              | lnone =>
                  dsimp only at h
                  have := ih ctx s2 e s' h
                  rw [this, hs2]
              | lsome className =>
                  dsimp only at h
                  cases hrec : withNewLocalInstancesList or k rest
                      { ctx with
                        localInstances := ctx.localInstances.push ⟨className, fv⟩ }
                      (setSynth [] s2) with
                  | ok vr sr => rw [hrec] at h; cases h
                  | error er sr =>
                      rw [hrec] at h
                      injection h with h1 h2
                      have := ih _ _ _ _ hrec
                      rw [← h2]
                      show (setSynth s2.cache.synthInstance sr).mctx = s.mctx
                      rw [show (setSynth s2.cache.synthInstance sr).mctx = sr.mctx from rfl]
                      rw [this]
                      exact hs2
              | lundef =>
                  dsimp only at h
                  cases he2 : or.isClassExpensive dd.type ctx s2 with
                  | error ee se =>
                      rw [he2] at h
                      dsimp only at h
                      cases h
                      have := he dd.type ctx s2
                      rw [he2] at this
                      simp only [MResult.state] at this
                      rw [this, hs2]
                  | ok r2 s3 =>
                      have hs3 : s3.mctx = s.mctx := by
                        have := he dd.type ctx s2
                        rw [he2] at this
                        simp only [MResult.state] at this
                        rw [this, hs2]
                      rw [he2] at h
                      cases r2 with
                      | none =>
                          dsimp only at h
                          have := ih ctx s3 e s' h
                          rw [this, hs3]
                      | some className =>
                          dsimp only at h
                          cases hrec : withNewLocalInstancesList or k rest
                              { ctx with
                                localInstances :=
                                  ctx.localInstances.push ⟨className, fv⟩ }
                              (setSynth [] s3) with
                          | ok vr sr => rw [hrec] at h; cases h
                          | error er sr =>
                              rw [hrec] at h
                              injection h with h1 h2
                              have := ih _ _ _ _ hrec
                              rw [← h2]
                              show (setSynth s3.cache.synthInstance sr).mctx = s.mctx
                              rw [show (setSynth s3.cache.synthInstance sr).mctx
                                  = sr.mctx from rfl]
                              rw [this]
                              exact hs3

theorem introNEpilogue_error_mctx (mvarId : Nat) (fvars : Array Expr) (ty : Expr) :
    ∀ (c : Context) (st : State) (e : MetaErr) (s' : State),
      introNEpilogue mvarId fvars ty c st = MResult.error e s' → s'.mctx = st.mctx := by
  intro c st e s' h
  simp only [introNEpilogue, getMVarTag, getMVarDecl] at h
  cases hfind : st.mctx.findDecl? mvarId <;> rw [hfind] at h
  · injection h with h1 h2
    rw [← h2]
  · cases h

theorem introNAux_error_mctx (or : Oracles) (mvarId : Nat)
    (hw : PreservesMctx or.whnf) (hq : PreservesMctx or.isClassQuick)
    (he : PreservesMctx or.isClassExpensive) :
    ∀ (n : Nat) (lctx : LocalContext) (fvars : Array Expr) (j : Nat)
      (names : List Name) (B : Expr) (ctx : Context) (s : State)
      (e : MetaErr) (s' : State),
      introNAux or mvarId n lctx fvars j names B ctx s = MResult.error e s' →
      s'.mctx = s.mctx := by
  intro n
  induction n with
  | zero =>
      intro lctx fvars j names B ctx s e s' h
      exact wNLI_error_mctx or hq he _
        (introNEpilogue_error_mctx mvarId fvars _) _ _ s e s' h
  | succ n ih =>
      intro lctx fvars j names B ctx s e s' h
      cases B with
      | forallE binderName bi dom body =>
          exact (ih _ _ _ _ _ _ _ _ _ h).trans rfl
      | letE binderName t v body =>
          exact (ih _ _ _ _ _ _ _ _ _ h).trans rfl
      | bvar i =>
          refine wNLI_error_mctx or hq he _ ?_ _ _ s e s' h
          intro c st e2 s2 h2
          cases hwn : or.whnf (instantiateRevRange (Expr.bvar i) j fvars.size fvars) c st with
          | error ew sw =>
              rw [hwn] at h2
              injection h2 with h3 h4
              have := hw (instantiateRevRange (Expr.bvar i) j fvars.size fvars) c st
              rw [hwn] at this
              simp only [MResult.state] at this
              rw [← h4, this]
          | ok newType sw =>
              have hsw : sw.mctx = st.mctx := by
                have := hw (instantiateRevRange (Expr.bvar i) j fvars.size fvars) c st
                rw [hwn] at this
                simpa [MResult.state] using this
              rw [hwn] at h2
              dsimp only at h2
              by_cases hf : newType.isForall = true
              · rw [if_pos hf] at h2
                exact (ih _ _ _ _ _ _ _ _ _ h2).trans hsw
              · rw [if_neg hf] at h2
                injection h2 with h3 h4
                rw [← h4]
                exact hsw
      | fvar id =>
          refine wNLI_error_mctx or hq he _ ?_ _ _ s e s' h
          intro c st e2 s2 h2
          cases hwn : or.whnf (instantiateRevRange (Expr.fvar id) j fvars.size fvars) c st with
          | error ew sw =>
              rw [hwn] at h2
              injection h2 with h3 h4
              have := hw (instantiateRevRange (Expr.fvar id) j fvars.size fvars) c st
              rw [hwn] at this
              simp only [MResult.state] at this
              rw [← h4, this]
          | ok newType sw =>
              have hsw : sw.mctx = st.mctx := by
                have := hw (instantiateRevRange (Expr.fvar id) j fvars.size fvars) c st
                rw [hwn] at this
                simpa [MResult.state] using this
              rw [hwn] at h2
              dsimp only at h2
              by_cases hf : newType.isForall = true
              · rw [if_pos hf] at h2
                exact (ih _ _ _ _ _ _ _ _ _ h2).trans hsw
              · rw [if_neg hf] at h2
                injection h2 with h3 h4
                rw [← h4]
                exact hsw
      | mvar id =>
          refine wNLI_error_mctx or hq he _ ?_ _ _ s e s' h
          intro c st e2 s2 h2
          cases hwn : or.whnf (instantiateRevRange (Expr.mvar id) j fvars.size fvars) c st with
          | error ew sw =>
              rw [hwn] at h2
              injection h2 with h3 h4
              have := hw (instantiateRevRange (Expr.mvar id) j fvars.size fvars) c st
              rw [hwn] at this
              simp only [MResult.state] at this
              rw [← h4, this]
          | ok newType sw =>
              have hsw : sw.mctx = st.mctx := by
                have := hw (instantiateRevRange (Expr.mvar id) j fvars.size fvars) c st
                rw [hwn] at this
                simpa [MResult.state] using this
              rw [hwn] at h2
              dsimp only at h2
              by_cases hf : newType.isForall = true
              · rw [if_pos hf] at h2
                exact (ih _ _ _ _ _ _ _ _ _ h2).trans hsw
              · rw [if_neg hf] at h2
                injection h2 with h3 h4
                rw [← h4]
                exact hsw
      | sort u =>
          refine wNLI_error_mctx or hq he _ ?_ _ _ s e s' h
          intro c st e2 s2 h2
          cases hwn : or.whnf (instantiateRevRange (Expr.sort u) j fvars.size fvars) c st with
          | error ew sw =>
              rw [hwn] at h2
              injection h2 with h3 h4
              have := hw (instantiateRevRange (Expr.sort u) j fvars.size fvars) c st
              rw [hwn] at this
              simp only [MResult.state] at this
              rw [← h4, this]
          | ok newType sw =>
              have hsw : sw.mctx = st.mctx := by
                have := hw (instantiateRevRange (Expr.sort u) j fvars.size fvars) c st
                rw [hwn] at this
                simpa [MResult.state] using this
              rw [hwn] at h2
              dsimp only at h2
              by_cases hf : newType.isForall = true
              · rw [if_pos hf] at h2
                exact (ih _ _ _ _ _ _ _ _ _ h2).trans hsw
              · rw [if_neg hf] at h2
                injection h2 with h3 h4
                rw [← h4]
                exact hsw
      | const nm =>
          refine wNLI_error_mctx or hq he _ ?_ _ _ s e s' h
          intro c st e2 s2 h2
          cases hwn : or.whnf (instantiateRevRange (Expr.const nm) j fvars.size fvars) c st with
          | error ew sw =>
              rw [hwn] at h2
              injection h2 with h3 h4
              have := hw (instantiateRevRange (Expr.const nm) j fvars.size fvars) c st
              rw [hwn] at this
              simp only [MResult.state] at this
              rw [← h4, this]
          | ok newType sw =>
              have hsw : sw.mctx = st.mctx := by
                have := hw (instantiateRevRange (Expr.const nm) j fvars.size fvars) c st
                rw [hwn] at this
                simpa [MResult.state] using this
              rw [hwn] at h2
              dsimp only at h2
              by_cases hf : newType.isForall = true
              · rw [if_pos hf] at h2
                exact (ih _ _ _ _ _ _ _ _ _ h2).trans hsw
              · rw [if_neg hf] at h2
                injection h2 with h3 h4
                rw [← h4]
                exact hsw
      | app f a =>
          refine wNLI_error_mctx or hq he _ ?_ _ _ s e s' h
          intro c st e2 s2 h2
          cases hwn : or.whnf (instantiateRevRange (Expr.app f a) j fvars.size fvars) c st with
          | error ew sw =>
              rw [hwn] at h2
              injection h2 with h3 h4
              have := hw (instantiateRevRange (Expr.app f a) j fvars.size fvars) c st
              rw [hwn] at this
              simp only [MResult.state] at this
              rw [← h4, this]
          | ok newType sw =>
              have hsw : sw.mctx = st.mctx := by
                have := hw (instantiateRevRange (Expr.app f a) j fvars.size fvars) c st
                rw [hwn] at this
                simpa [MResult.state] using this
              rw [hwn] at h2
              dsimp only at h2
              by_cases hf : newType.isForall = true
              · rw [if_pos hf] at h2
                exact (ih _ _ _ _ _ _ _ _ _ h2).trans hsw
              · rw [if_neg hf] at h2
                injection h2 with h3 h4
                rw [← h4]
                exact hsw
      | lam nm bi t b =>
          refine wNLI_error_mctx or hq he _ ?_ _ _ s e s' h
          intro c st e2 s2 h2
          cases hwn : or.whnf (instantiateRevRange (Expr.lam nm bi t b) j fvars.size fvars) c st with
          | error ew sw =>
              rw [hwn] at h2
              injection h2 with h3 h4
              have := hw (instantiateRevRange (Expr.lam nm bi t b) j fvars.size fvars) c st
              rw [hwn] at this
              simp only [MResult.state] at this
              rw [← h4, this]
          | ok newType sw =>
              have hsw : sw.mctx = st.mctx := by
                have := hw (instantiateRevRange (Expr.lam nm bi t b) j fvars.size fvars) c st
                rw [hwn] at this
                simpa [MResult.state] using this
              rw [hwn] at h2
              dsimp only at h2
              by_cases hf : newType.isForall = true
              · rw [if_pos hf] at h2
                exact (ih _ _ _ _ _ _ _ _ _ h2).trans hsw
              · rw [if_neg hf] at h2
                injection h2 with h3 h4
                rw [← h4]
                exact hsw

theorem introNCoreBody_error_mctx (or : Oracles) (mvarId : Nat)
    (hw : PreservesMctx or.whnf) (hq : PreservesMctx or.isClassQuick)
    (he : PreservesMctx or.isClassExpensive)
    (n : Nat) (names : List Name) (lctx0 : LocalContext) (ctx : Context) (s : State)
    (e : MetaErr) (s' : State)
    (h : introNCoreBody or mvarId n names lctx0 ctx s = MResult.error e s') :
    s'.mctx = s.mctx := by
  simp only [introNCoreBody, checkNotAssigned] at h
  by_cases ha : s.mctx.isExprAssigned mvarId = true
  · rw [if_pos ha] at h
    dsimp only at h
    injection h with h1 h2
    rw [← h2]
  · rw [if_neg ha] at h
    dsimp only at h
    simp only [getMVarType, getMVarDecl] at h
    cases hfind : s.mctx.findDecl? mvarId <;> rw [hfind] at h
    · dsimp only at h
      injection h with h1 h2
      rw [← h2]
    · dsimp only at h
      cases haux : introNAux or mvarId n lctx0 #[] 0 names _ ctx s <;> rw [haux] at h
      · rename_i v sres
        cases v
        dsimp only at h
        cases h
      · dsimp only at h
        injection h with h1 h2
        rw [← h2]
        exact introNAux_error_mctx or mvarId hw hq he _ _ _ _ _ _ _ _ _ _ haux

theorem introNCore_error_mctx (or : Oracles)
    (hw : PreservesMctx or.whnf) (hq : PreservesMctx or.isClassQuick)
    (he : PreservesMctx or.isClassExpensive)
    (mvarId n : Nat) (names : List Name) (ctx : Context) (s : State)
    (e : MetaErr) (s' : State)
    (h : introNCore or mvarId n names ctx s = MResult.error e s') :
    s'.mctx = s.mctx := by
  simp only [introNCore, getMVarDecl] at h
  cases hfind : s.mctx.findDecl? mvarId <;> rw [hfind] at h
  · dsimp only at h
    injection h with h1 h2
    rw [← h2]
  · rename_i d
    dsimp only at h
    by_cases hi : instancesEqual ctx.localInstances d.localInstances = true
    · rw [if_pos hi] at h
      exact introNCoreBody_error_mctx or mvarId hw hq he n names d.lctx _ s e s' h
    · rw [if_neg hi] at h
      cases hb : introNCoreBody or mvarId n names d.lctx
          { ctx with lctx := d.lctx, localInstances := d.localInstances }
          (setSynth [] s) <;> rw [hb] at h
      · cases h
      · injection h with h1 h2
        rw [← h2]
        have hbm := introNCoreBody_error_mctx or mvarId hw hq he n names d.lctx
          { ctx with lctx := d.lctx, localInstances := d.localInstances }
          (setSynth [] s) _ _ hb
        exact hbm

theorem freshFVarList_length (base n : Nat) : (freshFVarList base n).length = n := by
  simp [freshFVarList]

theorem freshFVarList_map_ids (base n : Nat) :
    (freshFVarList base n).map exprFVarId = (List.range n).map (fun i => base + i) := by
  simp [freshFVarList, List.map_map, Function.comp, exprFVarId]

/-- C1.  For every `n ≥ 0` and every goal metavariable whose type has at least
`n` leading `Forall`/`Let` binders, `introN` succeeds (assuming the class
classifiers are well-behaved oracles), returns an array of exactly `n`
pairwise-distinct freshly minted `FVarId`s (the next `n` values of the
generator), and the new goal's type is the original type with those `n`
binders peeled and each body instantiated by the corresponding fresh free
variable, in order (`peelTele`). -/
theorem introN_peels_leading_binders (or : Oracles)
    (hq : OracleRuns or.isClassQuick) (he : OracleRuns or.isClassExpensive)
    (mvarId n : Nat) (names : List Name) (ctx : Context) (s : State)
    (d : MetavarDecl)
    (hD : s.mctx.findDecl? mvarId = some d)
    (hA : s.mctx.isExprAssigned mvarId = false)
    (hn : n ≤ leadingBinders d.type) :
    ∃ ids s' d',
      introN or mvarId n names ctx s = MResult.ok (ids, s.ngen + n) s' ∧
      ids.toList = (List.range n).map (fun i => s.ngen + i) ∧
      ids.size = n ∧ ids.toList.Nodup ∧
      s'.mctx.findDecl? (s.ngen + n) = some d' ∧
      peelTele d.type (freshFVarList s.ngen n) = some d'.type := by
  rcases introNCore_run or mvarId n names ctx s d hD hA with ⟨s0, g, hg, hm0, hn0, heq⟩
  rcases introNAux_run or hq he mvarId n d.type d.lctx #[] names
      { ctx with lctx := d.lctx, localInstances := d.localInstances } s0 hn
      (by rw [hm0, hD]; rfl)
      (by intro fv hfv; exact absurd hfv (List.not_mem_nil fv)) with
    ⟨sA, dA, arr, h1, h2, h3, h4⟩
  rw [h1] at heq
  simp only [mapOkIds, mapResState] at heq
  refine ⟨arr.map exprFVarId, g sA, dA, ?_, ?_, ?_, ?_, ?_, ?_⟩
  · rw [heq, hn0]
  · rw [Array.toList_map, h2, hn0]
    simp [freshFVarList_map_ids]
  · have : (arr.map exprFVarId).toList.length = n := by
      rw [Array.toList_map, h2]
      simp [freshFVarList_length]
    simpa [Array.length_toList] using this
  · rw [Array.toList_map, h2, hn0]
    simp only [List.nil_append, freshFVarList_map_ids]
    exact List.Nodup.map (fun a b hab => by omega) (List.nodup_range n)
  · rw [(hg sA).1, ← hn0]
    exact h3
  · have hbridge := peelTele_of_stripN n d.type [] (freshFVarList s.ngen n)
      (by intro y hy; exact absurd hy (List.not_mem_nil y))
      (freshFVarList_closed s.ngen n) (freshFVarList_length s.ngen n) hn
    rw [instRevList_nil, List.nil_append] at hbridge
    rw [hbridge, h4, hn0]
    simp

/-- C3.  For every `n` (including `0`) and every goal metavariable that
already has an assignment, `introN` fails with the `AlreadyAssigned` tactic
error, returning the caller's state untouched — the unassignedness check runs
before any binder is peeled. -/
theorem introN_already_assigned_fails (or : Oracles) (mvarId n : Nat)
    (names : List Name) (ctx : Context) (s : State) (d : MetavarDecl)
    (hD : s.mctx.findDecl? mvarId = some d)
    (hA : s.mctx.isExprAssigned mvarId = true) :
    introN or mvarId n names ctx s =
      MResult.error
        (MetaErr.tacticEx introNTacticName mvarId TacticErrKind.alreadyAssigned) s := by
  simp only [introN, introNCore, getMVarDecl, hD]
  by_cases hi : instancesEqual ctx.localInstances d.localInstances = true
  · rw [if_pos hi]
    simp only [introNCoreBody, checkNotAssigned, hA, if_true]
  · rw [if_neg hi]
    simp only [introNCoreBody, checkNotAssigned]
    rw [show (setSynth [] s).mctx.isExprAssigned mvarId = true from hA]
    simp only [if_true]
    show MResult.error _ (setSynth s.cache.synthInstance (setSynth [] s)) = _
    rw [setSynth_setSynth, setSynth_self]

/-- C7.  `introN` with `n = 0` on an unassigned goal succeeds, returns an
empty `FVarId` array together with a fresh goal metavariable whose type, local
context, and tag equal the original goal's in content, and the original goal
becomes assigned. -/
theorem introN_zero_is_noop (or : Oracles) (mvarId : Nat) (names : List Name)
    (ctx : Context) (s : State) (d : MetavarDecl)
    (hD : s.mctx.findDecl? mvarId = some d)
    (hA : s.mctx.isExprAssigned mvarId = false) :
    ∃ s', introN or mvarId 0 names ctx s = MResult.ok (#[], s.ngen) s' ∧
      s'.mctx.findDecl? s.ngen =
        some ⟨d.userName, d.lctx, d.type, s.mctx.depth, d.localInstances, 2⟩ ∧
      s'.mctx.isExprAssigned mvarId = true := by
  rcases introNCore_run or mvarId 0 names ctx s d hD hA with ⟨s0, g, hg, hm0, hn0, heq⟩
  rw [show introNAux or mvarId 0 d.lctx #[] 0 names d.type
        { ctx with lctx := d.lctx, localInstances := d.localInstances } s0
      = introNEpilogue mvarId #[]
          (instantiateRevRange d.type 0 (#[] : Array Expr).size #[])
          { ctx with lctx := d.lctx, localInstances := d.localInstances } s0
      from rfl] at heq
  rw [show instantiateRevRange d.type 0 (#[] : Array Expr).size #[] = d.type from
    instantiateRevRange_empty d.type] at heq
  rw [introNEpilogue_run mvarId #[] d.type _ s0 d (by rw [hm0]; exact hD)] at heq
  simp only [mapOkIds, mapResState] at heq
  rw [hn0, hm0] at heq
  rw [show Array.map exprFVarId #[] = (#[] : Array Nat) from rfl] at heq
  refine ⟨_, heq, ?_, ?_⟩
  · rw [(hg _).1]
    exact findDecl?_addDecl_self _ _ _
  · rw [(hg _).1]
    exact isExprAssigned_assignExpr_self _ _ _

theorem instantiateRevRange_emptyArr (e : Expr) (beg en : Nat) :
    instantiateRevRange e beg en (#[] : Array Expr) = e := by
  simp [instantiateRevRange, instRevList_nil]

theorem wNLI_nil {α : Type} (or : Oracles) (k : Context → State → MResult α)
    (c : Context) (st : State) : withNewLocalInstancesList or k [] c st = k c st := rfl

theorem introNAux_fallback (or : Oracles) (mvarId n : Nat) (lctx : LocalContext)
    (fvars : Array Expr) (j : Nat) (names : List Name) (B : Expr)
    (ctx : Context) (s : State) (hB : leadingBinders B = 0) :
    introNAux or mvarId (n + 1) lctx fvars j names B ctx s =
      withNewLocalInstancesList or
        (fun c st =>
          match or.whnf (instantiateRevRange B j fvars.size fvars) c st with
          | MResult.error e s' => MResult.error e s'
          | MResult.ok newType s2 =>
              if newType.isForall then
                introNAux or mvarId n lctx fvars fvars.size names newType c s2
              else
                throwTacticEx introNTacticName mvarId
                  TacticErrKind.insufficientBinders s2)
        (fvars.toList.drop j) { ctx with lctx := lctx } s := by
  cases B <;> first
    | rfl
    | simp [leadingBinders] at hB

/-- C10.  When the whnf fallback fires with binders still requested and the
reduced type is not a `Forall` — in particular when whnf produces a `Let`
binder — `introN` fails with `InsufficientBinders` rather than peeling it;
only syntactically present `Let` binders are peeled. -/
theorem introN_whnf_nonforall_fails (or : Oracles) (mvarId n : Nat)
    (names : List Name) (ctx : Context) (s : State) (d : MetavarDecl) (r : Expr)
    (hD : s.mctx.findDecl? mvarId = some d)
    (hA : s.mctx.isExprAssigned mvarId = false)
    (hHead : leadingBinders d.type = 0)
    (hW : ∀ c st, or.whnf d.type c st = MResult.ok r st)
    (hr : r.isForall = false) :
    ∃ s', introN or mvarId (n + 1) names ctx s =
        MResult.error
          (MetaErr.tacticEx introNTacticName mvarId TacticErrKind.insufficientBinders)
          s' ∧
      s'.mctx = s.mctx := by
  rcases introNCore_run or mvarId (n + 1) names ctx s d hD hA with
    ⟨s0, g, hg, hm0, hn0, heq⟩
  rw [introNAux_fallback or mvarId n d.lctx #[] 0 names d.type _ s0 hHead] at heq
  rw [show ((#[] : Array Expr).toList.drop 0) = [] from rfl] at heq
  rw [wNLI_nil] at heq
  rw [show instantiateRevRange d.type 0 (#[] : Array Expr).size #[] = d.type from
    instantiateRevRange_emptyArr d.type 0 _] at heq
  rw [hW _ s0] at heq
  dsimp only at heq
  rw [if_neg (by rw [hr]; exact Bool.false_ne_true)] at heq
  simp only [throwTacticEx, mapOkIds, mapResState] at heq
  exact ⟨g s0, heq, ((hg s0).1).trans hm0⟩

/-- C6.  Before peeling begins, `introNCore` compares the goal's declared
local-instance array against the context's: when the code's size-then-
element-wise test succeeds — which happens exactly when the two arrays are
equal — the shared body runs with the instance-resolution cache untouched; in
every other case the body runs on a state whose cache has been reset to empty
(with the saved cache restored around the result). -/
theorem introNCore_cache_coherence_guard (or : Oracles) (mvarId n : Nat)
    (names : List Name) (ctx : Context) (s : State) (d : MetavarDecl)
    (hD : s.mctx.findDecl? mvarId = some d) :
    (ctx.localInstances = d.localInstances →
      introN or mvarId n names ctx s =
        introNCoreBody or mvarId n names d.lctx
          { ctx with lctx := d.lctx, localInstances := d.localInstances } s)
    ∧ (ctx.localInstances ≠ d.localInstances →
      introN or mvarId n names ctx s =
        restoreSynth s.cache.synthInstance
          (introNCoreBody or mvarId n names d.lctx
            { ctx with lctx := d.lctx, localInstances := d.localInstances }
            (setSynth [] s))) := by
  constructor
  · intro h
    simp only [introN, introNCore, getMVarDecl, hD]
    rw [if_pos ((instancesEqual_iff ctx.localInstances d.localInstances).mpr h)]
  · intro h
    simp only [introN, introNCore, getMVarDecl, hD]
    rw [if_neg (fun hc => h ((instancesEqual_iff ctx.localInstances d.localInstances).mp hc))]

/-- C5.  Per newly introduced hypothesis, the instance-registration sweep
behaves as specified: a `NotClass` answer from `isClassQuick` leaves the cache
untouched; an `IsClass(className)` answer appends
`LocalInstance{className, fvarId}` to the context's instance array and resets
`synthInstanceCache` to empty for the rest of the computation (the saved cache
being restored on exit); an `Unknown` answer consults `isClassExpensive`, and
the same register-and-reset update is applied exactly when the expensive
classifier answers `IsClass`.  In the registering cases, the continuation —
the remainder of the same `introN` call, including every later resolution
query — runs under the extended instance array, so it observes the new
instance. -/
theorem withNewLocalInstances_classification_step {α : Type} (or : Oracles)
    (k : Context → State → MResult α) (fv : Expr) (rest : List Expr)
    (ctx : Context) (s : State) (id : Nat) (dd : LocalDecl)
    (hfv : fv = Expr.fvar id) (hdd : ctx.lctx.find? id = some dd) :
    (∀ s1, or.isClassQuick dd.type ctx s = MResult.ok LOptionName.lnone s1 →
      withNewLocalInstancesList or k (fv :: rest) ctx s =
        withNewLocalInstancesList or k rest ctx s1)
    ∧ (∀ className s1,
        or.isClassQuick dd.type ctx s = MResult.ok (LOptionName.lsome className) s1 →
      withNewLocalInstancesList or k (fv :: rest) ctx s =
        restoreSynth s1.cache.synthInstance
          (withNewLocalInstancesList or k rest
            { ctx with localInstances := ctx.localInstances.push ⟨className, fv⟩ }
            (setSynth [] s1)))
    ∧ (∀ s1 s2, or.isClassQuick dd.type ctx s = MResult.ok LOptionName.lundef s1 →
        or.isClassExpensive dd.type ctx s1 = MResult.ok none s2 →
      withNewLocalInstancesList or k (fv :: rest) ctx s =
        withNewLocalInstancesList or k rest ctx s2)
    ∧ (∀ className s1 s2,
        or.isClassQuick dd.type ctx s = MResult.ok LOptionName.lundef s1 →
        or.isClassExpensive dd.type ctx s1 = MResult.ok (some className) s2 →
      withNewLocalInstancesList or k (fv :: rest) ctx s =
        restoreSynth s2.cache.synthInstance
          (withNewLocalInstancesList or k rest
            { ctx with localInstances := ctx.localInstances.push ⟨className, fv⟩ }
            (setSynth [] s2))) := by
  subst hfv
  refine ⟨?_, ?_, ?_, ?_⟩
  · intro s1 hq1
    simp only [withNewLocalInstancesList, getFVarLocalDecl, exprFVarId, hdd, hq1]
  · intro className s1 hq1
    simp only [withNewLocalInstancesList, getFVarLocalDecl, exprFVarId, hdd, hq1]
  · intro s1 s2 hq1 he1
    simp only [withNewLocalInstancesList, getFVarLocalDecl, exprFVarId, hdd, hq1, he1]
  · intro className s1 s2 hq1 he1
    simp only [withNewLocalInstancesList, getFVarLocalDecl, exprFVarId, hdd, hq1, he1]

/-- Projection applied by `intro` and `intro1` to the result of the shared
core: the sole introduced id is read off the returned array. -/
def mapOkFirst : MResult (Array Nat × Nat) → MResult (Nat × Nat)
  | MResult.ok (ids, newGoal) s => MResult.ok (ids.getD 0 0, newGoal) s
  | MResult.error e s => MResult.error e s

/-- C8.  `intro(goal, name)` behaves exactly like `introN(goal, 1, [name])`
and `intro1(goal)` exactly like `introN(goal, 1, [])` with auto-naming: all
three run the single underlying `introNCore` algorithm, differ only in how
the name list is built, and `intro` / `intro1` return the sole introduced
`FVarId` (read off the array) together with the same new goal and state
`introN` returns. -/
theorem intro_intro1_refine_introN (or : Oracles) :
    (∀ (mvarId : Nat) (nm : Name) (ctx : Context) (s : State),
      intro or mvarId nm ctx s = mapOkFirst (introN or mvarId 1 [nm] ctx s))
    ∧ (∀ (mvarId : Nat) (ctx : Context) (s : State),
      intro1 or mvarId ctx s = mapOkFirst (introN or mvarId 1 [] ctx s)) := by
  constructor
  · intro mvarId nm ctx s
    simp only [intro, introN]
    cases h : introNCore or mvarId 1 [nm] ctx s with
    | ok v s' => cases v; rfl
    | error e s' => rfl
  · intro mvarId ctx s
    simp only [intro1, introN]
    cases h : introNCore or mvarId 1 [] ctx s with
    | ok v s' => cases v; rfl
    | error e s' => rfl

/-- C4.  Whenever `introN` (or `intro` / `intro1`) returns an error, no
caller-visible mutation of the metavariable context has occurred: given that
the external oracles never touch the metavariable context, every error
outcome carries a state whose `MetavarContext` — declarations and assignments
alike — is the original one. -/
theorem intro_error_leaves_mctx_unchanged (or : Oracles)
    (hw : PreservesMctx or.whnf) (hq : PreservesMctx or.isClassQuick)
    (he : PreservesMctx or.isClassExpensive) :
    (∀ (mvarId n : Nat) (names : List Name) (ctx : Context) (s : State)
        (e : MetaErr) (s' : State),
      introN or mvarId n names ctx s = MResult.error e s' → s'.mctx = s.mctx)
    ∧ (∀ (mvarId : Nat) (nm : Name) (ctx : Context) (s : State)
        (e : MetaErr) (s' : State),
      intro or mvarId nm ctx s = MResult.error e s' → s'.mctx = s.mctx)
    ∧ (∀ (mvarId : Nat) (ctx : Context) (s : State) (e : MetaErr) (s' : State),
      intro1 or mvarId ctx s = MResult.error e s' → s'.mctx = s.mctx) := by
  refine ⟨?_, ?_, ?_⟩
  · intro mvarId n names ctx s e s' h
    exact introNCore_error_mctx or hw hq he mvarId n names ctx s e s' h
  · intro mvarId nm ctx s e s' h
    simp only [intro] at h
    cases hc : introNCore or mvarId 1 [nm] ctx s <;> rw [hc] at h
    · rename_i v sres
      cases v
      dsimp only at h
      cases h
    · dsimp only at h
      injection h with h1 h2
      subst h1
      subst h2
      exact introNCore_error_mctx or hw hq he mvarId 1 [nm] ctx s _ _ hc
  · intro mvarId ctx s e s' h
    simp only [intro1] at h
    cases hc : introNCore or mvarId 1 [] ctx s <;> rw [hc] at h
    · rename_i v sres
      cases v
      dsimp only at h
      cases h
    · dsimp only at h
      injection h with h1 h2
      subst h1
      subst h2
      exact introNCore_error_mctx or hw hq he mvarId 1 [] ctx s _ _ hc

theorem introN_one_binder_name (or : Oracles)
    (hq : OracleRuns or.isClassQuick) (he : OracleRuns or.isClassExpensive)
    (mvarId : Nat) (names : List Name) (ctx : Context) (s : State)
    (d : MetavarDecl) (bn : Name) (bi : BinderInfo) (dom body : Expr)
    (hD : s.mctx.findDecl? mvarId = some d)
    (hA : s.mctx.isExprAssigned mvarId = false)
    (hT : d.type = Expr.forallE bn bi dom body) :
    ∃ s' d', introN or mvarId 1 names ctx s = MResult.ok (#[s.ngen], s.ngen + 1) s' ∧
      s'.mctx.findDecl? (s.ngen + 1) = some d' ∧
      d'.lctx = d.lctx.mkLocalDecl s.ngen (mkAuxName or d.lctx bn names).1 dom bi := by
  rcases introNCore_run or mvarId 1 names ctx s d hD hA with ⟨s0, g, hg, hm0, hn0, heq⟩
  rw [hT] at heq
  rw [show introNAux or mvarId 1 d.lctx #[] 0 names (Expr.forallE bn bi dom body)
        { ctx with lctx := d.lctx, localInstances := d.localInstances } s0
      = introNAux or mvarId 0
          (d.lctx.mkLocalDecl s0.ngen (mkAuxName or d.lctx bn names).1
            (instantiateRevRange dom 0 (#[] : Array Expr).size #[]) bi)
          #[Expr.fvar s0.ngen] 0 (mkAuxName or d.lctx bn names).2 body
          { ctx with lctx := d.lctx, localInstances := d.localInstances }
          { s0 with ngen := s0.ngen + 1 } from rfl] at heq
  rw [instantiateRevRange_emptyArr dom 0 _] at heq
  rw [show introNAux or mvarId 0
        (d.lctx.mkLocalDecl s0.ngen (mkAuxName or d.lctx bn names).1 dom bi)
        #[Expr.fvar s0.ngen] 0 (mkAuxName or d.lctx bn names).2 body
        { ctx with lctx := d.lctx, localInstances := d.localInstances }
        { s0 with ngen := s0.ngen + 1 }
      = withNewLocalInstancesList or
          (introNEpilogue mvarId #[Expr.fvar s0.ngen]
            (instantiateRevRange body 0 (#[Expr.fvar s0.ngen] : Array Expr).size
              #[Expr.fvar s0.ngen]))
          [Expr.fvar s0.ngen]
          { ctx with
            lctx := d.lctx.mkLocalDecl s0.ngen (mkAuxName or d.lctx bn names).1 dom bi,
            localInstances := d.localInstances }
          { s0 with ngen := s0.ngen + 1 } from rfl] at heq
  rcases wNLI_runs or hq he
      (introNEpilogue mvarId #[Expr.fvar s0.ngen]
        (instantiateRevRange body 0 (#[Expr.fvar s0.ngen] : Array Expr).size
          #[Expr.fvar s0.ngen]))
      [Expr.fvar s0.ngen]
      { ctx with
        lctx := d.lctx.mkLocalDecl s0.ngen (mkAuxName or d.lctx bn names).1 dom bi,
        localInstances := d.localInstances }
      { s0 with ngen := s0.ngen + 1 }
      (by intro fv hfv
          have : fv = Expr.fvar s0.ngen := by simpa using hfv
          subst this
          exact find?_mkLocalDecl_isSome _ _ _ _ _ _ (Or.inr rfl)) with
    ⟨ctx2, s2, g2, hg2, heq2, hl2, hm2, hn2⟩
  rw [heq2] at heq
  rw [introNEpilogue_run mvarId #[Expr.fvar s0.ngen] _ ctx2 s2 d
    (by rw [hm2]; show s0.mctx.findDecl? mvarId = some d; rw [hm0]; exact hD)] at heq
  simp only [mapOkIds, mapResState] at heq
  rw [show (Array.map exprFVarId #[Expr.fvar s0.ngen]) = #[s0.ngen] from rfl] at heq
  rw [show s2.ngen = s0.ngen + 1 from hn2] at heq
  rw [hn0] at heq
  refine ⟨_, ⟨d.userName, ctx2.lctx,
      instantiateRevRange body 0 (#[Expr.fvar (s.ngen)] : Array Expr).size
        #[Expr.fvar (s.ngen)],
      s2.mctx.depth, ctx2.localInstances, 2⟩, heq, ?_, ?_⟩
  · rw [(hg _).1, (hg2 _).1]
    exact findDecl?_addDecl_self _ _ _
  · show ctx2.lctx = _
    rw [hl2]
    show d.lctx.mkLocalDecl s0.ngen (mkAuxName or d.lctx bn names).1 dom bi = _
    rw [hn0]

/-- C9.  With a name list supplied to `introN`, each position's provided name
is used verbatim for the introduced hypothesis unless it equals the reserved
placeholder name, in which case the unused-name oracle generates the name
(from the binder-name hint over the goal's context); when the list is
exhausted — in particular when it is empty — the unused-name oracle is used
as well. -/
theorem introN_naming (or : Oracles)
    (hq : OracleRuns or.isClassQuick) (he : OracleRuns or.isClassExpensive)
    (mvarId : Nat) (ctx : Context) (s : State)
    (d : MetavarDecl) (bn : Name) (bi : BinderInfo) (dom body : Expr)
    (hD : s.mctx.findDecl? mvarId = some d)
    (hA : s.mctx.isExprAssigned mvarId = false)
    (hT : d.type = Expr.forallE bn bi dom body) :
    (∀ nm, nm ≠ placeholderName →
      ∃ s' d', introN or mvarId 1 [nm] ctx s = MResult.ok (#[s.ngen], s.ngen + 1) s' ∧
        s'.mctx.findDecl? (s.ngen + 1) = some d' ∧
        d'.lctx = d.lctx.mkLocalDecl s.ngen nm dom bi)
    ∧ (∃ s' d', introN or mvarId 1 [placeholderName] ctx s =
          MResult.ok (#[s.ngen], s.ngen + 1) s' ∧
        s'.mctx.findDecl? (s.ngen + 1) = some d' ∧
        d'.lctx = d.lctx.mkLocalDecl s.ngen (or.getUnusedName d.lctx bn) dom bi)
    ∧ (∃ s' d', introN or mvarId 1 [] ctx s = MResult.ok (#[s.ngen], s.ngen + 1) s' ∧
        s'.mctx.findDecl? (s.ngen + 1) = some d' ∧
        d'.lctx = d.lctx.mkLocalDecl s.ngen (or.getUnusedName d.lctx bn) dom bi) := by
  refine ⟨?_, ?_, ?_⟩
  · intro nm hnm
    have h := introN_one_binder_name or hq he mvarId [nm] ctx s d bn bi dom body hD hA hT
    rw [show (mkAuxName or d.lctx bn [nm]).1 = nm from by
      simp [mkAuxName, hnm]] at h
    exact h
  · have h := introN_one_binder_name or hq he mvarId [placeholderName] ctx s d bn bi
      dom body hD hA hT
    rw [show (mkAuxName or d.lctx bn [placeholderName]).1 = or.getUnusedName d.lctx bn
      from by simp [mkAuxName]] at h
    exact h
  · have h := introN_one_binder_name or hq he mvarId [] ctx s d bn bi dom body hD hA hT
    rw [show (mkAuxName or d.lctx bn []).1 = or.getUnusedName d.lctx bn from rfl] at h
    exact h

/-! Concrete material for witnesses and for the whnf-fallback evaluation. -/

/-- Concrete auto-generated name returned by the witness oracles. -/
def wUnused : Name := Name.str Name.anonymous "u"

/-- Concrete well-behaved oracles: `whnf` is the identity, the classifiers
always answer `NotClass`, the unused-name generator is constant. -/
def wOracle : Oracles :=
  { whnf := fun e _ st => MResult.ok e st
    isClassQuick := fun _ _ st => MResult.ok LOptionName.lnone st
    isClassExpensive := fun _ _ st => MResult.ok none st
    getUnusedName := fun _ _ => wUnused }

/-- Concrete base type used in witness goals. -/
def natTy : Expr := Expr.const (Name.str Name.anonymous "N")

/-- Binder name of the first binder of the witness goal type. -/
def wBn : Name := Name.str Name.anonymous "a"

/-- Body under the first binder of the witness goal type:
`forall (b : N), Eq bvar1 bvar0 -> T`. -/
def wBody : Expr :=
  Expr.forallE (Name.str Name.anonymous "b") BinderInfo.default natTy
    (Expr.forallE (Name.str Name.anonymous "h") BinderInfo.default
      (Expr.app (Expr.app (Expr.const (Name.str Name.anonymous "Eq")) (Expr.bvar 1))
        (Expr.bvar 0))
      (Expr.const (Name.str Name.anonymous "T")))

/-- The witness goal type `forall (a b : N), Eq a b -> T` of the spec's
example. -/
def wTy : Expr := Expr.forallE wBn BinderInfo.default natTy wBody

/-- Declaration of the witness goal metavariable `100`. -/
def wDecl : MetavarDecl := ⟨Name.str Name.anonymous "g", ⟨[]⟩, wTy, 0, #[], 0⟩

/-- Witness state: goal `100` declared with type `wTy`, unassigned. -/
def wState : State := ⟨0, ⟨0, [(100, wDecl)], []⟩, ⟨0, 0, []⟩, 0, 0, 0⟩

/-- Witness state with goal `100` already assigned. -/
def wStateA : State := ⟨0, ⟨0, [(100, wDecl)], [(100, Expr.sort 0)]⟩, ⟨0, 0, []⟩, 0, 0, 0⟩

/-- Witness ambient context: empty local context, no local instances. -/
def wCtx : Context := ⟨0, ⟨[]⟩, #[], 0, 0⟩

/-- Declaration whose type is an opaque constant, for the whnf-fallback
scenarios. -/
def w10Decl : MetavarDecl :=
  ⟨Name.str Name.anonymous "g", ⟨[]⟩, Expr.const (Name.str Name.anonymous "c"), 0, #[], 0⟩

/-- State with the opaque-typed goal `100` declared and unassigned. -/
def w10State : State := ⟨0, ⟨0, [(100, w10Decl)], []⟩, ⟨0, 0, []⟩, 0, 0, 0⟩

/-- A `Let` binder, returned by the whnf oracle in the C10 witness. -/
def w10Red : Expr := Expr.letE wBn natTy natTy (Expr.bvar 0)

/-- Oracles whose whnf turns everything into the `Let` binder `w10Red`. -/
def w10Oracle : Oracles :=
  { wOracle with whnf := fun _ _ st => MResult.ok w10Red st }

/-- A two-binder `Forall` telescope, returned by the whnf oracle in the C2
evaluation. -/
def c2Red : Expr :=
  Expr.forallE wBn BinderInfo.default natTy
    (Expr.forallE (Name.str Name.anonymous "b") BinderInfo.default natTy
      (Expr.const (Name.str Name.anonymous "T")))

/-- Oracles whose whnf turns everything into the two-binder telescope
`c2Red`. -/
def c2Oracle : Oracles :=
  { wOracle with whnf := fun _ _ st => MResult.ok c2Red st }

/-- Ids returned by a successful `introN` outcome. -/
def resultIds : MResult (Array Nat × Nat) → Option (Array Nat)
  | MResult.ok (ids, _) _ => some ids
  | MResult.error _ _ => none

/-- C2.  Evaluation of `introN` at the failing input of the whnf fallback:
the goal's type is the opaque constant `c`, whnf reduces it to the two-binder
telescope `forall (a b : N), T`, and `n = 2` binders are requested.  The call
succeeds but returns only one introduced `FVarId` (`#[0]`), not two: after
the whnf oracle produced a `Forall`, the fallback resumed peeling with the
already decremented counter (`n - 1`), so the whnf step itself consumed one
requested binder without introducing a hypothesis. -/
theorem introN_whnf_fallback_consumes_request :
    resultIds (introN c2Oracle 100 2 [] wCtx w10State) = some #[0] ∧
      (resultIds (introN c2Oracle 100 2 [] wCtx w10State)).map Array.size = some 1 := by
  exact ⟨rfl, rfl⟩

/-! Witnesses: each theorem with hypotheses applied at a concrete input. -/

theorem introN_peels_leading_binders_witness :
    (OracleRuns wOracle.isClassQuick ∧ OracleRuns wOracle.isClassExpensive ∧
      wState.mctx.findDecl? 100 = some wDecl ∧
      wState.mctx.isExprAssigned 100 = false ∧
      3 ≤ leadingBinders wDecl.type) ∧
    (∃ ids s' d',
      introN wOracle 100 3 [] wCtx wState = MResult.ok (ids, wState.ngen + 3) s' ∧
      ids.toList = (List.range 3).map (fun i => wState.ngen + i) ∧
      ids.size = 3 ∧ ids.toList.Nodup ∧
      s'.mctx.findDecl? (wState.ngen + 3) = some d' ∧
      peelTele wDecl.type (freshFVarList wState.ngen 3) = some d'.type) :=
  ⟨⟨fun _ _ st => ⟨LOptionName.lnone, st, rfl, rfl, rfl⟩,
    fun _ _ st => ⟨none, st, rfl, rfl, rfl⟩, rfl, rfl, by decide⟩,
    introN_peels_leading_binders wOracle
      (fun _ _ st => ⟨LOptionName.lnone, st, rfl, rfl, rfl⟩)
      (fun _ _ st => ⟨none, st, rfl, rfl, rfl⟩)
      100 3 [] wCtx wState wDecl rfl rfl (by decide)⟩

theorem introN_already_assigned_fails_witness :
    (wStateA.mctx.findDecl? 100 = some wDecl ∧
      wStateA.mctx.isExprAssigned 100 = true) ∧
    introN wOracle 100 0 [] wCtx wStateA =
      MResult.error
        (MetaErr.tacticEx introNTacticName 100 TacticErrKind.alreadyAssigned)
        wStateA :=
  ⟨⟨rfl, rfl⟩,
    introN_already_assigned_fails wOracle 100 0 [] wCtx wStateA wDecl rfl rfl⟩

theorem intro_error_leaves_mctx_unchanged_witness :
    (PreservesMctx wOracle.whnf ∧ PreservesMctx wOracle.isClassQuick ∧
      PreservesMctx wOracle.isClassExpensive) ∧
    ((∀ (mvarId n : Nat) (names : List Name) (ctx : Context) (s : State)
        (e : MetaErr) (s' : State),
      introN wOracle mvarId n names ctx s = MResult.error e s' → s'.mctx = s.mctx)
    ∧ (∀ (mvarId : Nat) (nm : Name) (ctx : Context) (s : State)
        (e : MetaErr) (s' : State),
      intro wOracle mvarId nm ctx s = MResult.error e s' → s'.mctx = s.mctx)
    ∧ (∀ (mvarId : Nat) (ctx : Context) (s : State) (e : MetaErr) (s' : State),
      intro1 wOracle mvarId ctx s = MResult.error e s' → s'.mctx = s.mctx)) :=
  ⟨⟨fun _ _ _ => rfl, fun _ _ _ => rfl, fun _ _ _ => rfl⟩,
    intro_error_leaves_mctx_unchanged wOracle
      (fun _ _ _ => rfl) (fun _ _ _ => rfl) (fun _ _ _ => rfl)⟩

/-- Concrete context holding one hypothesis declaration, for the C5 witness. -/
def w5Ctx : Context :=
  ⟨0, ⟨[LocalDecl.cdecl 7 wUnused natTy BinderInfo.default]⟩, #[], 0, 0⟩

/-- The declaration of free variable `7` in `w5Ctx`. -/
def w5Decl : LocalDecl := LocalDecl.cdecl 7 wUnused natTy BinderInfo.default

/-- Trivial continuation for the C5 witness. -/
def w5Cont : Context → State → MResult Nat := fun _ st => MResult.ok 0 st

theorem withNewLocalInstances_classification_step_witness :
    ((Expr.fvar 7 : Expr) = Expr.fvar 7 ∧ w5Ctx.lctx.find? 7 = some w5Decl) ∧
    ((∀ s1, wOracle.isClassQuick w5Decl.type w5Ctx wState =
          MResult.ok LOptionName.lnone s1 →
      withNewLocalInstancesList wOracle w5Cont [Expr.fvar 7] w5Ctx wState =
        withNewLocalInstancesList wOracle w5Cont [] w5Ctx s1)
    ∧ (∀ className s1,
        wOracle.isClassQuick w5Decl.type w5Ctx wState =
          MResult.ok (LOptionName.lsome className) s1 →
      withNewLocalInstancesList wOracle w5Cont [Expr.fvar 7] w5Ctx wState =
        restoreSynth s1.cache.synthInstance
          (withNewLocalInstancesList wOracle w5Cont []
            { w5Ctx with
              localInstances := w5Ctx.localInstances.push ⟨className, Expr.fvar 7⟩ }
            (setSynth [] s1)))
    ∧ (∀ s1 s2,
        wOracle.isClassQuick w5Decl.type w5Ctx wState =
          MResult.ok LOptionName.lundef s1 →
        wOracle.isClassExpensive w5Decl.type w5Ctx s1 = MResult.ok none s2 →
      withNewLocalInstancesList wOracle w5Cont [Expr.fvar 7] w5Ctx wState =
        withNewLocalInstancesList wOracle w5Cont [] w5Ctx s2)
    ∧ (∀ className s1 s2,
        wOracle.isClassQuick w5Decl.type w5Ctx wState =
          MResult.ok LOptionName.lundef s1 →
        wOracle.isClassExpensive w5Decl.type w5Ctx s1 =
          MResult.ok (some className) s2 →
      withNewLocalInstancesList wOracle w5Cont [Expr.fvar 7] w5Ctx wState =
        restoreSynth s2.cache.synthInstance
          (withNewLocalInstancesList wOracle w5Cont []
            { w5Ctx with
              localInstances := w5Ctx.localInstances.push ⟨className, Expr.fvar 7⟩ }
            (setSynth [] s2)))) :=
  ⟨⟨rfl, rfl⟩,
    withNewLocalInstances_classification_step wOracle w5Cont (Expr.fvar 7) []
      w5Ctx wState 7 w5Decl rfl rfl⟩

theorem introNCore_cache_coherence_guard_witness :
    (wState.mctx.findDecl? 100 = some wDecl) ∧
    ((wCtx.localInstances = wDecl.localInstances →
      introN wOracle 100 2 [] wCtx wState =
        introNCoreBody wOracle 100 2 [] wDecl.lctx
          { wCtx with lctx := wDecl.lctx, localInstances := wDecl.localInstances }
          wState)
    ∧ (wCtx.localInstances ≠ wDecl.localInstances →
      introN wOracle 100 2 [] wCtx wState =
        restoreSynth wState.cache.synthInstance
          (introNCoreBody wOracle 100 2 [] wDecl.lctx
            { wCtx with lctx := wDecl.lctx, localInstances := wDecl.localInstances }
            (setSynth [] wState)))) :=
  ⟨rfl, introNCore_cache_coherence_guard wOracle 100 2 [] wCtx wState wDecl rfl⟩

theorem introN_zero_is_noop_witness :
    (wState.mctx.findDecl? 100 = some wDecl ∧
      wState.mctx.isExprAssigned 100 = false) ∧
    (∃ s', introN wOracle 100 0 [] wCtx wState = MResult.ok (#[], wState.ngen) s' ∧
      s'.mctx.findDecl? wState.ngen =
        some ⟨wDecl.userName, wDecl.lctx, wDecl.type, wState.mctx.depth,
          wDecl.localInstances, 2⟩ ∧
      s'.mctx.isExprAssigned 100 = true) :=
  ⟨⟨rfl, rfl⟩, introN_zero_is_noop wOracle 100 [] wCtx wState wDecl rfl rfl⟩

theorem introN_naming_witness :
    (OracleRuns wOracle.isClassQuick ∧ OracleRuns wOracle.isClassExpensive ∧
      wState.mctx.findDecl? 100 = some wDecl ∧
      wState.mctx.isExprAssigned 100 = false ∧
      wDecl.type = Expr.forallE wBn BinderInfo.default natTy wBody) ∧
    ((∀ nm, nm ≠ placeholderName →
      ∃ s' d', introN wOracle 100 1 [nm] wCtx wState =
          MResult.ok (#[wState.ngen], wState.ngen + 1) s' ∧
        s'.mctx.findDecl? (wState.ngen + 1) = some d' ∧
        d'.lctx = wDecl.lctx.mkLocalDecl wState.ngen nm natTy BinderInfo.default)
    ∧ (∃ s' d', introN wOracle 100 1 [placeholderName] wCtx wState =
          MResult.ok (#[wState.ngen], wState.ngen + 1) s' ∧
        s'.mctx.findDecl? (wState.ngen + 1) = some d' ∧
        d'.lctx = wDecl.lctx.mkLocalDecl wState.ngen
          (wOracle.getUnusedName wDecl.lctx wBn) natTy BinderInfo.default)
    ∧ (∃ s' d', introN wOracle 100 1 [] wCtx wState =
          MResult.ok (#[wState.ngen], wState.ngen + 1) s' ∧
        s'.mctx.findDecl? (wState.ngen + 1) = some d' ∧
        d'.lctx = wDecl.lctx.mkLocalDecl wState.ngen
          (wOracle.getUnusedName wDecl.lctx wBn) natTy BinderInfo.default)) :=
  ⟨⟨fun _ _ st => ⟨LOptionName.lnone, st, rfl, rfl, rfl⟩,
    fun _ _ st => ⟨none, st, rfl, rfl, rfl⟩, rfl, rfl, rfl⟩,
    introN_naming wOracle
      (fun _ _ st => ⟨LOptionName.lnone, st, rfl, rfl, rfl⟩)
      (fun _ _ st => ⟨none, st, rfl, rfl, rfl⟩)
      100 wCtx wState wDecl wBn BinderInfo.default natTy wBody rfl rfl rfl⟩

theorem introN_whnf_nonforall_fails_witness :
    (w10State.mctx.findDecl? 100 = some w10Decl ∧
      w10State.mctx.isExprAssigned 100 = false ∧
      leadingBinders w10Decl.type = 0 ∧
      (∀ c st, w10Oracle.whnf w10Decl.type c st = MResult.ok w10Red st) ∧
      w10Red.isForall = false) ∧
    (∃ s', introN w10Oracle 100 (0 + 1) [] wCtx w10State =
        MResult.error
          (MetaErr.tacticEx introNTacticName 100 TacticErrKind.insufficientBinders)
          s' ∧
      s'.mctx = w10State.mctx) :=
  ⟨⟨rfl, rfl, rfl, fun _ _ => rfl, rfl⟩,
    introN_whnf_nonforall_fails w10Oracle 100 0 [] wCtx w10State w10Decl w10Red
      rfl rfl rfl (fun _ _ => rfl) rfl⟩

end IntroSpec
